import Mathlib

/-!
Verification of the tg-channel-to-rss lambda (src/lambda/app.py) against its
natural-language specification.

The Python source is shallowly embedded: strings are modelled as `List Char`
(wrapped in `String` at the API boundary), regular-expression scans are
modelled by explicit, deterministic matchers (the three regexes involved,
`URL_RE`, `BG_URL_RE` and the four `href`/`src` substitution patterns of
`absolutize_links`, have no essential backtracking, so a deterministic
matcher is faithful), and the BeautifulSoup DOM is modelled by a tree of
element, comment and text nodes.  Library collaborators (`html.escape`,
`urllib.parse.urljoin` for path-absolute references, `datetime.fromisoformat`
as a validity check, BeautifulSoup parsing and serialization — both the
formatter-escaping `decode_contents` and the raw `str()`-join over
`contents`) are modelled explicitly; Python's Unicode-aware whitespace class
is modelled by `isSpacePy`.
Scanning functions whose recursion skips over a matched span carry an
explicit fuel argument (always instantiated with the input length, which is
shown to be sufficient); this keeps every definition kernel-computable.
-/

/-- ASCII whitespace, as lxml's tag/attribute tokenizer uses it (also the
ASCII core of Python's `\s`). -/
def isSpaceA (c : Char) : Bool :=
  c = ' ' || c = '\t' || c = '\n' || c = '\r' || c.toNat = 11 || c.toNat = 12

/-- Python's Unicode-aware whitespace class (`\s` in `re` over `str`,
`str.isspace`, `str.strip` and bs4's attribute splitter): ASCII whitespace
plus the separator controls 0x1C-0x1F, NEL (0x85), NBSP (0xA0), and the
Unicode space/line/paragraph separators. -/
def isSpacePy (c : Char) : Bool :=
  isSpaceA c || (28 <= c.toNat && c.toNat <= 31) || c.toNat = 133 || c.toNat = 160
    || c.toNat = 5760 || (8192 <= c.toNat && c.toNat <= 8202)
    || c.toNat = 8232 || c.toNat = 8233 || c.toNat = 8239 || c.toNat = 8287
    || c.toNat = 12288

/-- The double-quote character. -/
def dqC : Char := Char.ofNat 34

/-- The single-quote (apostrophe) character. -/
def sqC : Char := Char.ofNat 39

/-- One character of Python's `html.escape(s, quote=True)` (the call used by
`autolink_plain`): `&`, `<`, `>`, and both quote characters are replaced by
entities. -/
def escChar (c : Char) : List Char :=
  if c = '&' then "&amp;".data
  else if c = '<' then "&lt;".data
  else if c = '>' then "&gt;".data
  else if c = dqC then "&quot;".data
  else if c = sqC then "&#x27;".data
  else [c]

/-- Python's `html.escape(s, quote=True)` on character lists.  The chained
`str.replace` calls of the CPython implementation are equivalent to this
character-wise map because no replacement output contains a character that a
later replacement rewrites. -/
def htmlEscapeL (l : List Char) : List Char := (l.map escChar).flatten

/-- Python's `html.escape` for strings (imported as `html_escape` in app.py). -/
def html_escape (s : String) : String := ⟨htmlEscapeL s.data⟩

/-- Match a literal character list at the head of the input, returning the
rest on success. -/
def dropLit : List Char → List Char → Option (List Char)
  | [], cs => some cs
  | _ :: _, [] => none
  | l :: ls, c :: cs => if c = l then dropLit ls cs else none

/-- Characters allowed inside a URL span by `URL_RE = (https?://[^\s<>"']+)`:
everything except whitespace, angle brackets and quotes. -/
def urlChar (c : Char) : Bool :=
  !(isSpacePy c || c = '<' || c = '>' || c = dqC || c = sqC)

/-- Match the scheme part `https?://` of `URL_RE` at the head of the input.
The regex alternation is deterministic: a string cannot start with both
`http://` and `https://`. -/
def schemeAt (cs : List Char) : Option (List Char × List Char) :=
  match dropLit "https://".data cs with
  | some r => some ("https://".data, r)
  | none =>
    match dropLit "http://".data cs with
    | some r => some ("http://".data, r)
    | none => none

/-- Match `URL_RE` anchored at the head of the input: the scheme followed by a
maximal nonempty run of `urlChar` characters.  Returns the matched span and
the rest. -/
def urlMatchAt (cs : List Char) : Option (List Char × List Char) :=
  match schemeAt cs with
  | none => none
  | some (sch, r) =>
    if r.takeWhile urlChar = [] then none
    else some (sch ++ r.takeWhile urlChar, r.dropWhile urlChar)

/-- The anchor emitted by `autolink_plain` for one matched URL:
`<a href="{safe_url}" rel="noopener" target="_blank">{safe_url}</a>` with
`safe_url = html.escape(url, quote=True)`. -/
def anchorL (url : List Char) : List Char :=
  "<a href=\"".data ++ htmlEscapeL url
    ++ "\" rel=\"noopener\" target=\"_blank\">".data
    ++ htmlEscapeL url ++ "</a>".data

/-- Fueled scan of `autolink_plain`: `re.finditer` emits the escaped gap text
character by character (equivalent to escaping each gap as a block, since
`html.escape` is a character-wise map) and an anchor per non-overlapping
leftmost match. -/
def autolinkGo : Nat → List Char → List Char
  | 0, _ => []
  | _ + 1, [] => []
  | n + 1, c :: cs =>
    match urlMatchAt (c :: cs) with
    | some (url, rest) => anchorL url ++ autolinkGo n rest
    | none => escChar c ++ autolinkGo n cs

/-- `autolink_plain` over character lists (with sufficient fuel). -/
def autolinkL (cs : List Char) : List Char := autolinkGo cs.length cs

/-- `autolink_plain` from app.py: convert plain URLs to anchors and escape all
other text; falsy (empty) input yields the empty string. -/
def autolink_plain (text : String) : String :=
  if text = "" then "" else ⟨autolinkL text.data⟩

/-- Claim-side tag stripper for the content-preservation law: removes every
`<a ...>` and `</...>` span (the only tags `autolink_plain` can emit) from a
string, keeping all other characters. -/
def stripAGo : Bool → List Char → List Char
  | true, [] => []
  | true, c :: cs => if c = '>' then stripAGo false cs else stripAGo true cs
  | false, [] => []
  | false, c :: cs =>
    match cs with
    | [] => [c]
    | c2 :: cs2 =>
      if c = '<' && (c2 = 'a' || c2 = '/') then stripAGo true cs2
      else c :: stripAGo false (c2 :: cs2)

/-- Strip all `<a>` tags (opening and closing) from a string. -/
def stripATags (s : String) : String := ⟨stripAGo false s.data⟩

/-- Python's `str.lower()` restricted to ASCII case mapping, as used by
`guess_mime`. -/
def lowerStr (s : String) : String := ⟨s.data.map Char.toLower⟩

/-- Python's `str.endswith` for a single suffix. -/
def endsWithS (s t : String) : Bool := decide (t.data <:+ s.data)

/-- `guess_mime` from app.py: best-effort MIME type inference from the
lower-cased URL's extension, with `application/octet-stream` as the total
fallback. -/
def guess_mime (url : String) : String :=
  if endsWithS (lowerStr url) ".jpg" || endsWithS (lowerStr url) ".jpeg" then "image/jpeg"
  else if endsWithS (lowerStr url) ".png" then "image/png"
  else if endsWithS (lowerStr url) ".webp" then "image/webp"
  else if endsWithS (lowerStr url) ".gif" then "image/gif"
  else "application/octet-stream"

/-- Characters legal in a URL scheme after the first character
(urllib's `scheme_chars`). -/
def schemeChar (c : Char) : Bool := c.isAlphanum || c = '+' || c = '-' || c = '.'

/-- Split a leading `scheme:` off a URL, as `urllib.parse.urlsplit` does: the
part before the first colon counts as a scheme when it is nonempty, starts
with a letter and contains only scheme characters; it is lower-cased. -/
def splitSchemeL (u : List Char) : Option (List Char × List Char) :=
  let pre := u.takeWhile (fun c => c ≠ ':')
  if pre.length < u.length && !pre.isEmpty
      && (pre.headD ' ').isAlpha && pre.all schemeChar then
    some (pre.map Char.toLower, u.drop (pre.length + 1))
  else none

/-- A character that ends a netloc in `urlsplit` (`/`, `?` or `#`). -/
def netlocChar (c : Char) : Bool := !(c = '/' || c = '?' || c = '#')

/-- Split a leading `//netloc` off, the netloc running to the next `/`, `?`
or `#` (urllib `urlsplit`). -/
def splitNetlocL (u : List Char) : (List Char × List Char) :=
  if u.take 2 = "//".data then
    ((u.drop 2).takeWhile netlocChar, (u.drop 2).dropWhile netlocChar)
  else ([], u)

/-- The components produced by `urllib.parse.urlsplit` (the rarely-used
`;parameters` split of `urlparse` is not modelled; none of the joins below
re-split parameters). -/
structure UrlParts where
  scheme : List Char
  netloc : List Char
  path : List Char
  query : List Char
  fragment : List Char

/-- `urllib.parse.urlsplit`: fragment split at the first `#`, then scheme and
`//netloc` peeled off, then query split at the first `?`. -/
def urlsplitL (u : List Char) : UrlParts :=
  let u1 := u.takeWhile (fun c => c ≠ '#')
  let sr := (splitSchemeL u1).getD ([], u1)
  let nr := splitNetlocL sr.2
  { scheme := sr.1, netloc := nr.1,
    path := nr.2.takeWhile (fun c => c ≠ '?'),
    query := (nr.2.dropWhile (fun c => c ≠ '?')).drop 1,
    fragment := (u.dropWhile (fun c => c ≠ '#')).drop 1 }

/-- urllib's `uses_relative` scheme list. -/
def usesRelative (s : List Char) : Bool :=
  ["", "ftp", "http", "gopher", "nntp", "imap", "wais", "file", "https", "shttp",
   "mms", "prospero", "rtsp", "rtspu", "sftp", "svn", "svn+ssh", "ws", "wss"].any
    (fun t => s = t.data)

/-- urllib's `uses_netloc` scheme list. -/
def usesNetloc (s : List Char) : Bool :=
  ["", "ftp", "http", "gopher", "nntp", "telnet", "imap", "wais", "file", "mms",
   "https", "shttp", "snews", "prospero", "rtsp", "rtspu", "rsync", "svn",
   "svn+ssh", "sftp", "nfs", "git", "git+ssh", "ws", "wss", "itms-services"].any
    (fun t => s = t.data)

/-- Python's `str.split('/')`. -/
def splitOnSlash : List Char → List (List Char)
  | [] => [[]]
  | c :: r =>
    if c = '/' then [] :: splitOnSlash r
    else
      match splitOnSlash r with
      | s :: ss => (c :: s) :: ss
      | [] => [[c]]

/-- The dot-segment resolution loop of `urllib.parse.urljoin`: `..` pops the
last resolved segment (ignoring underflow), `.` is dropped, everything else
is appended. -/
def resolveSegs (segs : List (List Char)) : List (List Char) :=
  segs.foldl (fun acc seg =>
    if seg = "..".data then acc.dropLast
    else if seg = ".".data then acc
    else acc ++ [seg]) []

/-- Python's `'/'.join`. -/
def joinSegs : List (List Char) → List Char
  | [] => []
  | [s] => s
  | s :: rest => s ++ '/' :: joinSegs rest

/-- Dot-segment removal applied by `urljoin` to a path-absolute reference:
`'/'.join(resolved) or '/'`, with a trailing empty segment when the last
input segment is `.` or `..`. -/
def removeDotSegments (path : List Char) : List Char :=
  let segs := splitOnSlash path
  let res := resolveSegs segs
  let res2 := if segs.getLast? = some "..".data || segs.getLast? = some ".".data
    then res ++ [[]] else res
  let joined := joinSegs res2
  if joined = [] then ['/'] else joined

/-- `urllib.parse.urlunsplit`. -/
def urlunsplitL (p : UrlParts) : List Char :=
  let u0 := p.path
  let u1 := if p.netloc ≠ [] ∨ u0.take 2 = "//".data then
      ('/' :: '/' :: p.netloc) ++ (if u0 ≠ [] ∧ u0.take 1 ≠ ['/'] then '/' :: u0 else u0)
    else u0
  let u2 := if p.scheme ≠ [] then p.scheme ++ ':' :: u1 else u1
  let u3 := if p.query ≠ [] then u2 ++ '?' :: p.query else u2
  if p.fragment ≠ [] then u3 ++ '#' :: p.fragment else u3

/-- Model of `urllib.parse.urljoin(base, url)` for the references produced by
`absolutize_links` (whose matched values always start with `/`).  Follows
CPython: empty base or url short-circuit; a scheme mismatch or a base scheme
outside `uses_relative` returns the url unchanged; a reference with netloc
keeps its path verbatim; an empty reference path inherits the base path and
query; a path-absolute reference gets dot-segment resolution.  The
relative-path merge branch (references not starting with `/`) is not
exercised by `absolutize_links` and returns the reference unchanged. -/
def urljoin (base rel : String) : String :=
  if base = "" then rel
  else if rel = "" then base
  else
    let b := urlsplitL base.data
    let r := urlsplitL rel.data
    let rscheme := if r.scheme = [] then b.scheme else r.scheme
    if rscheme ≠ b.scheme ∨ usesRelative rscheme = false then rel
    else
      let netloc0 := if usesNetloc rscheme then
          (if r.netloc ≠ [] then r.netloc else b.netloc) else r.netloc
      if usesNetloc rscheme ∧ r.netloc ≠ [] then
        ⟨urlunsplitL
          { scheme := rscheme, netloc := r.netloc, path := r.path,
            query := r.query, fragment := r.fragment }⟩
      else if r.path = [] then
        ⟨urlunsplitL
          { scheme := rscheme, netloc := netloc0, path := b.path,
            query := if r.query = [] then b.query else r.query,
            fragment := r.fragment }⟩
      else if r.path.take 1 = ['/'] then
        ⟨urlunsplitL
          { scheme := rscheme, netloc := netloc0,
            path := removeDotSegments r.path,
            query := r.query, fragment := r.fragment }⟩
      else rel

/-- Match one substitution pattern of `absolutize_links`
(`key="(/[^"]+)"`, single- or double-quoted) at the head of the input: the
literal `key=` and opening quote, a value consisting of `/` followed by one
or more non-quote characters, and the closing quote.  Returns the matched
value and the rest after the closing quote. -/
def attrMatchAt (k : List Char) (q : Char) (cs : List Char) : Option (List Char × List Char) :=
  match dropLit (k ++ ['=', q]) cs with
  | none => none
  | some r1 =>
    match r1 with
    | '/' :: r2 =>
      if r2.takeWhile (· != q) = [] then none
      else
        match r2.dropWhile (· != q) with
        | c :: rest => if c = q then some ('/' :: r2.takeWhile (· != q), rest) else none
        | [] => none
    | _ => none

/-- The replacement emitted for one matched attribute value:
`key=` + quote + `urljoin(base, value)` + quote. -/
def replOf (k : List Char) (q : Char) (base : String) (v : List Char) : List Char :=
  k ++ '=' :: q :: ((urljoin base ⟨v⟩).data ++ [q])

/-- One `re.sub` pass of `absolutize_links`: a fueled left-to-right scan with
non-overlapping matches; each matched value is replaced by its `urljoin`
against the base, scanning resumes after the replacement. -/
def subGo (k : List Char) (q : Char) (base : String) : Nat → List Char → List Char
  | 0, _ => []
  | _ + 1, [] => []
  | n + 1, c :: cs =>
    match attrMatchAt k q (c :: cs) with
    | some (v, rest) => replOf k q base v ++ subGo k q base n rest
    | none => c :: subGo k q base n cs

/-- One `re.sub` pass with sufficient fuel. -/
def subPass (k : List Char) (q : Char) (base : String) (cs : List Char) : List Char :=
  subGo k q base cs.length cs

/-- `absolutize_links` from app.py: the four `re.sub` passes in source order
(`href` double-quoted, `href` single-quoted, `src` double-quoted, `src`
single-quoted). -/
def absolutize_links (html : String) (base : String) : String :=
  ⟨subPass "src".data sqC base
    (subPass "src".data dqC base
      (subPass "href".data sqC base
        (subPass "href".data dqC base html.data)))⟩

/-- The four key/quote combinations used by `absolutize_links`. -/
def attrCombos : List (List Char × Char) :=
  [("href".data, dqC), ("href".data, sqC), ("src".data, dqC), ("src".data, sqC)]

/-- No pattern occurrence for one key/quote combination anywhere in a string. -/
def NoPassMatchL (k : List Char) (q : Char) (cs : List Char) : Prop :=
  ∀ i, i < cs.length → attrMatchAt k q (cs.drop i) = none

instance (k : List Char) (q : Char) (cs : List Char) : Decidable (NoPassMatchL k q cs) :=
  Nat.decidableBallLT cs.length (fun i _ => attrMatchAt k q (cs.drop i) = none)

mutual
/-- The BeautifulSoup DOM model: an element with tag name, attributes in
document order, and children; a text node (`NavigableString`, stored
parse-decoded); or a comment (`Comment`, also a `NavigableString` subclass —
not a `Tag`, so tag traversals skip it). -/
inductive Node where
  | text : String → Node
  | elem : String → List (String × String) → NodeList → Node
  | comment : String → Node
/-- A list of sibling nodes (mutually inductive with `Node` so that all tree
recursions stay structural and kernel-computable). -/
inductive NodeList where
  | nil : NodeList
  | cons : Node → NodeList → NodeList
end

/-- Concatenation of sibling lists. -/
def NodeList.append : NodeList → NodeList → NodeList
  | .nil, ys => ys
  | .cons x xs, ys => .cons x (xs.append ys)

/-- First attribute value for a key (HTML parsers keep the first occurrence
of a duplicated attribute). -/
def getAttr (attrs : List (String × String)) (key : String) : Option String :=
  (attrs.find? (fun pr => pr.1 = key)).map (fun pr => pr.2)

/-- Tag name of a node (text nodes have none). -/
def Node.nameOf : Node → String
  | .text _ => ""
  | .elem n _ _ => n
  | .comment _ => ""

/-- Attributes of a node. -/
def Node.attrsOf : Node → List (String × String)
  | .text _ => []
  | .elem _ a _ => a
  | .comment _ => []

/-- `tag.get(key)` of BeautifulSoup. -/
def Node.attr (n : Node) (k : String) : Option String := getAttr n.attrsOf k

/-- Children of a node. -/
def Node.childrenOf : Node → NodeList
  | .text _ => .nil
  | .elem _ _ c => c
  | .comment _ => .nil

/-- Text escaping of BeautifulSoup's `minimal` formatter: `&`, `<`, `>`. -/
def escTextMin (c : Char) : List Char :=
  if c = '&' then "&amp;".data
  else if c = '<' then "&lt;".data
  else if c = '>' then "&gt;".data
  else [c]

/-- Attribute-value escaping of BeautifulSoup's serialization: `&`, `<`, `>`
and the double quote used as the value delimiter. -/
def escAttrMin (c : Char) : List Char :=
  if c = '&' then "&amp;".data
  else if c = '<' then "&lt;".data
  else if c = '>' then "&gt;".data
  else if c = dqC then "&quot;".data
  else [c]

/-- Serialize an attribute list in document order, values escaped and
double-quoted. -/
def renderAttrs (attrs : List (String × String)) : List Char :=
  attrs.foldr (fun pr acc =>
    ' ' :: pr.1.data ++ '=' :: dqC :: ((pr.2.data.map escAttrMin).flatten ++ dqC :: acc)) []

/-- HTML void elements, which BeautifulSoup serializes as `<name .../>`. -/
def isVoidTag (n : String) : Bool :=
  n = "br" || n = "img" || n = "hr" || n = "meta" || n = "link" || n = "input"
    || n = "area" || n = "base" || n = "col" || n = "embed" || n = "source"
    || n = "track" || n = "wbr"

mutual
/-- BeautifulSoup `Tag.decode` with the `minimal` formatter: nested text is
escaped, nested comments serialize with their `<!-- -->` delimiters. -/
def renderNode : Node → List Char
  | .text s => (s.data.map escTextMin).flatten
  | .elem name attrs children =>
    if isVoidTag name then '<' :: name.data ++ renderAttrs attrs ++ "/>".data
    else '<' :: name.data ++ renderAttrs attrs ++ '>' :: renderNodes children
      ++ "</".data ++ name.data ++ ['>']
  | .comment s => "<!--".data ++ s.data ++ "-->".data
/-- `decode_contents(formatter="minimal")`: the serialized children. -/
def renderNodes : NodeList → List Char
  | .nil => []
  | .cons x xs => renderNode x ++ renderNodes xs
end

/-- Python `str(x)` on one child of `container.contents`: a `Tag` serializes
with the formatter, but a `NavigableString` or `Comment` is a `str` subclass
whose `str()` is the parse-decoded text itself, emitted raw — with no
re-escaping and, for comments, no `<!-- -->` delimiters. -/
def renderTopNode : Node → List Char
  | .text s => s.data
  | .comment s => s.data
  | .elem name attrs children => renderNode (.elem name attrs children)

/-- `"".join(str(x) for x in container.contents)` from `sanitize_keep_links`. -/
def renderTopNodes : NodeList → List Char
  | .nil => []
  | .cons x xs => renderTopNode x ++ renderTopNodes xs

/-- Decode the basic HTML entities BeautifulSoup resolves while parsing. -/
def decodeEntities : Nat → List Char → List Char
  | 0, _ => []
  | _ + 1, [] => []
  | n + 1, c :: r =>
    if c = '&' then
      if "amp;".data.isPrefixOf r then '&' :: decodeEntities n (r.drop 4)
      else if "lt;".data.isPrefixOf r then '<' :: decodeEntities n (r.drop 3)
      else if "gt;".data.isPrefixOf r then '>' :: decodeEntities n (r.drop 3)
      else if "quot;".data.isPrefixOf r then dqC :: decodeEntities n (r.drop 5)
      else if "#x27;".data.isPrefixOf r then sqC :: decodeEntities n (r.drop 5)
      else if "#39;".data.isPrefixOf r then sqC :: decodeEntities n (r.drop 4)
      else '&' :: decodeEntities n r
    else c :: decodeEntities n r

/-- Characters of a tag or attribute name. -/
def isNameChar (c : Char) : Bool := c.isAlphanum || c = '-' || c = '_' || c = ':'

/-- Skip ASCII whitespace. -/
def skipWs (cs : List Char) : List Char := cs.dropWhile isSpaceA

/-- Parse the attribute list of an open tag (model of the lenient HTML
parsing BeautifulSoup performs): `name`, `name=value`, `name="value"`,
`name='value'`; stops before `>` or `/`. -/
def parseAttrs : Nat → List Char → (List (String × String) × List Char)
  | 0, cs => ([], cs)
  | n + 1, cs0 =>
    let cs := skipWs cs0
    match cs with
    | [] => ([], [])
    | c :: _ =>
      if c = '>' || c = '/' then ([], cs)
      else
        let name := cs.takeWhile (fun c => !(isSpaceA c) && c ≠ '=' && c ≠ '>' && c ≠ '/')
        if name = [] then ([], cs.drop 1)
        else
          let rest := skipWs (cs.drop name.length)
          match rest with
          | '=' :: r2 =>
            let r3 := skipWs r2
            match r3 with
            | q :: r4 =>
              if q = dqC || q = sqC then
                let v := r4.takeWhile (fun c => c ≠ q)
                let pr := parseAttrs n (r4.drop (v.length + 1))
                ((⟨name⟩, ⟨decodeEntities v.length v⟩) :: pr.1, pr.2)
              else
                let v := r3.takeWhile (fun c => !(isSpaceA c) && c ≠ '>')
                let pr := parseAttrs n (r3.drop v.length)
                ((⟨name⟩, ⟨decodeEntities v.length v⟩) :: pr.1, pr.2)
            | [] => ([(⟨name⟩, "")], [])
          | _ =>
            let pr := parseAttrs n rest
            ((⟨name⟩, "") :: pr.1, pr.2)

/-- Split a comment body: the content up to the terminating `-->` and the
rest after it (an unterminated comment swallows the remainder, as lenient
parsers recover). -/
def commentSplit : Nat → List Char → (List Char × List Char)
  | 0, cs => (cs, [])
  | _ + 1, [] => ([], [])
  | n + 1, c :: cs =>
    if "-->".data.isPrefixOf (c :: cs) then ([], cs.drop 2)
    else
      let pr := commentSplit n cs
      (c :: pr.1, pr.2)

/-- Recursive-descent fragment parser modelling BeautifulSoup+lxml on
well-formed fragments (lenient on garbage: anything total will do for the
tree-universal theorems; concrete claims evaluate it on well-formed input).
Returns the parsed siblings and the unconsumed rest (a close tag for the
enclosing element, or nothing). -/
def parseNodesGo : Nat → List Char → (NodeList × List Char)
  | 0, cs => (.nil, cs)
  | _ + 1, [] => (.nil, [])
  | n + 1, '<' :: cs =>
    match cs with
    | [] => (.cons (.text "<") .nil, [])
    | c :: _ =>
      if c = '/' then (.nil, '<' :: cs)
      else if c.isAlpha then
        let name := cs.takeWhile isNameChar
        let ar := parseAttrs n (cs.drop name.length)
        let selfClose := ar.2.take 2 = "/>".data
        let r2 := if selfClose then ar.2.drop 2
          else if ar.2.take 1 = ['>'] then ar.2.drop 1 else ar.2
        let nm : String := ⟨name.map Char.toLower⟩
        if selfClose || isVoidTag nm then
          let sr := parseNodesGo n r2
          (.cons (.elem nm ar.1 .nil) sr.1, sr.2)
        else
          let cr := parseNodesGo n r2
          let r4 := match cr.2 with
            | '<' :: '/' :: r =>
              ((r.dropWhile (fun c => c ≠ '>')).drop 1)
            | _ => cr.2
          let sr := parseNodesGo n r4
          (.cons (.elem nm ar.1 cr.1) sr.1, sr.2)
      else if "!--".data.isPrefixOf cs then
        let pr := commentSplit n (cs.drop 3)
        let sr := parseNodesGo n pr.2
        (.cons (.comment ⟨pr.1⟩) sr.1, sr.2)
      else
        let sr := parseNodesGo n cs
        (.cons (.text "<") sr.1, sr.2)
  | n + 1, cs =>
    let t := cs.takeWhile (fun c => c ≠ '<')
    let sr := parseNodesGo n (cs.drop t.length)
    (.cons (.text ⟨decodeEntities t.length t⟩) sr.1, sr.2)

/-- Top-level parse loop: collect siblings, skipping stray close tags. -/
def parseTopGo : Nat → List Char → NodeList
  | 0, _ => .nil
  | n + 1, cs =>
    let pr := parseNodesGo (n + 1) cs
    match pr.2 with
    | '<' :: '/' :: r2 =>
      NodeList.append pr.1 (parseTopGo n ((r2.dropWhile (fun c => c ≠ '>')).drop 1))
    | _ => pr.1

/-- Parse an HTML fragment into a node list (model of
`BeautifulSoup(html, "lxml")` on the message fragments this program feeds
it; the `html`/`body`/`p` wrappers lxml inserts are immaterial to
`sanitize_keep_links`, which unwraps every element other than `a` and `br`;
`<!-- -->` comments become comment nodes; doctype and processing-instruction
markup does not occur in Telegram message fragments). -/
def parseHTML (s : String) : NodeList := parseTopGo (s.data.length + 8) s.data

/-- The attribute rewrite `sanitize_keep_links` applies to an anchor: keep
`href` only if present and truthy (Python `if href:` drops an empty value),
then force `rel="noopener"` and `target="_blank"`, in insertion order. -/
def sanitizeAttrs (attrs : List (String × String)) : List (String × String) :=
  (match getAttr attrs "href" with
   | some h => if h ≠ "" then [("href", h)] else []
   | none => []) ++ [("rel", "noopener"), ("target", "_blank")]

mutual
/-- The traversal of `sanitize_keep_links`: anchors keep only sanitized
attributes, `<br>` tags are kept verbatim (`continue`, attributes included),
every other element is unwrapped (tag removed, children promoted in
place). -/
def sanNode : Node → NodeList
  | .text s => .cons (.text s) .nil
  | .elem name attrs children =>
    if name = "a" then .cons (.elem "a" (sanitizeAttrs attrs) (sanList children)) .nil
    else if name = "br" then .cons (.elem "br" attrs (sanList children)) .nil
    else sanList children
  | .comment s => .cons (.comment s) .nil
/-- The traversal applied to a sibling list. -/
def sanList : NodeList → NodeList
  | .nil => .nil
  | .cons x xs => NodeList.append (sanNode x) (sanList xs)
end

/-- `sanitize_keep_links` from app.py: falsy input yields `""`; otherwise the
parsed fragment is traversed, the result serialized, and a nonempty result
wrapped in `<p>…</p>`. -/
def sanitize_keep_links (html : String) : String :=
  if html = "" then ""
  else
    if renderTopNodes (sanList (parseHTML html)) = [] then ""
    else ⟨'<' :: 'p' :: '>' :: renderTopNodes (sanList (parseHTML html)) ++ "</p>".data⟩

mutual
/-- Amended safety predicate for the sanitizer output tree: only `a`, `br`,
comment and text nodes; an `a` element carries at most `href`, `rel`,
`target` attributes (a `br` keeps its source attributes verbatim; comments
pass through untouched). -/
def safeNode : Node → Bool
  | .text _ => true
  | .comment _ => true
  | .elem n attrs c =>
    (n = "a" || n = "br")
      && (n ≠ "a" || attrs.all (fun pr => pr.1 = "href" || pr.1 = "rel" || pr.1 = "target"))
      && safeList c
/-- `safeNode` over a sibling list. -/
def safeList : NodeList → Bool
  | .nil => true
  | .cons x xs => safeNode x && safeList xs
end

mutual
/-- The claim's stricter predicate: only `a`/`br`/text nodes (no comments),
a `br` carries no attributes at all, and no attribute beyond
`href`/`src`/`rel`/`target` ever appears. -/
def claimSafeNode : Node → Bool
  | .text _ => true
  | .comment _ => false
  | .elem n attrs c =>
    (n = "a" || n = "br")
      && (if n = "br" then attrs.isEmpty
          else attrs.all (fun pr =>
            pr.1 = "href" || pr.1 = "src" || pr.1 = "rel" || pr.1 = "target"))
      && claimSafeList c
/-- `claimSafeNode` over a sibling list. -/
def claimSafeList : NodeList → Bool
  | .nil => true
  | .cons x xs => claimSafeNode x && claimSafeList xs
end

mutual
/-- Preorder (document-order) list of the element descendants of a node,
each paired with its ancestor chain (nearest first, rooted at the scan
root); text nodes are not elements and are skipped. -/
def descNode (anc : List Node) : Node → List (Node × List Node)
  | .text _ => []
  | .comment _ => []
  | .elem n a c =>
    (Node.elem n a c, anc) :: descList (Node.elem n a c :: anc) c
/-- `descNode` over a sibling list. -/
def descList (anc : List Node) : NodeList → List (Node × List Node)
  | .nil => []
  | .cons x xs => descNode anc x ++ descList anc xs
end

/-- All element descendants of a scan root (the root itself excluded, as in
`element.select(...)`), with ancestor chains that stop at the root. -/
def descendantsOf (d : Node) : List (Node × List Node) :=
  match d with
  | .text _ => []
  | .comment _ => []
  | .elem n a c => descList [Node.elem n a c] c

/-- Substring test (Python's `in` on strings), by explicit scan. -/
def containsL : List Char → List Char → Bool
  | [], pat => pat.isEmpty
  | c :: r, pat => pat.isPrefixOf (c :: r) || containsL r pat

/-- Substring test on strings. -/
def containsS (hay pat : String) : Bool := containsL hay.data pat.data

/-- Split a character list on whitespace into nonempty tokens (`cur` is the
current token, reversed). -/
def tokensGo (cur : List Char) : List Char → List String
  | [] => if cur = [] then [] else [⟨cur.reverse⟩]
  | c :: r =>
    if isSpacePy c then
      if cur = [] then tokensGo [] r else ⟨cur.reverse⟩ :: tokensGo [] r
    else tokensGo (c :: cur) r

/-- Whitespace-split class tokens of a node (BeautifulSoup stores `class` as
a token list). -/
def classTokens (nd : Node) : List String :=
  tokensGo [] ((nd.attr "class").getD "").data

/-- `" ".join(node.get("class", []))` from the source. -/
def classJoined (nd : Node) : String := String.intercalate " " (classTokens nd)

/-- `is_reaction_or_emoji` from app.py: any ancestor whose joined class list
contains a reactions marker, an own class list containing an emoji marker,
a `src` containing an emoji/sticker asset-path marker, or an inline style
containing `emoji` or `sticker`. -/
def is_reaction_or_emoji (node : Node) (parents : List Node) : Bool :=
  parents.any (fun pr =>
    containsS (classJoined pr) "tgme_widget_message_reactions"
      || containsS (classJoined pr) "tgme_widget_message_reactions_small")
  || (["emoji", "tgme_widget_emoji", "emoji_image"].any
      (fun x => containsS (classJoined node) x))
  || (["/emoji/", "/stickers/", "emoji-static", "emoji-animated"].any
      (fun part => containsS ((node.attr "src").getD "") part))
  || containsS ((node.attr "style").getD "") "emoji"
  || containsS ((node.attr "style").getD "") "sticker"

/-- Case-insensitive literal match (for `re.IGNORECASE`). -/
def dropLitCI : List Char → List Char → Option (List Char)
  | [], cs => some cs
  | _ :: _, [] => none
  | l :: ls, c :: cs => if c.toLower = l.toLower then dropLitCI ls cs else none

/-- A character the `BG_URL_RE` capture group `[^'")]+` accepts. -/
def bgUrlChar (c : Char) : Bool := !(c = sqC || c = dqC || c = ')')

/-- The tail of `BG_URL_RE` after `url(`: an optional opening quote, the
greedy nonempty capture group, an optional closing quote, and `)`.  The
optional quotes are deterministic because the group excludes quote
characters. -/
def bgAfterUrl (r3 : List Char) : Option (List Char) :=
  let r4 := match r3 with
    | c :: rest => if c = sqC || c = dqC then rest else r3
    | [] => r3
  if r4.takeWhile bgUrlChar = [] then none
  else
    match r4.dropWhile bgUrlChar with
    | [] => none
    | c :: rest2 =>
      if c = ')' then some (r4.takeWhile bgUrlChar)
      else if c = sqC || c = dqC then
        match rest2 with
        | [] => none
        | c2 :: _ => if c2 = ')' then some (r4.takeWhile bgUrlChar) else none
      else none

/-- The part of `BG_URL_RE` after `background-image:` and the `\s*` gap. -/
def bgAfterColon (r2 : List Char) : Option (List Char) :=
  match dropLitCI "url(".data r2 with
  | none => none
  | some r3 => bgAfterUrl r3

/-- Match `BG_URL_RE = background-image:\s*url\(['"]?(?P<u>[^'")]+)['"]?\)`
anchored at the head of the input (case-insensitive literals).  Returns the
captured URL. -/
def bgMatchHere (cs : List Char) : Option (List Char) :=
  match dropLitCI "background-image:".data cs with
  | none => none
  | some r1 => bgAfterColon (r1.dropWhile isSpacePy)

/-- `re.search` for `BG_URL_RE`: try every start position, leftmost first. -/
def bgSearch : List Char → Option (List Char)
  | [] => none
  | c :: cs =>
    match bgMatchHere (c :: cs) with
    | some u => some u
    | none => bgSearch cs

/-- The dedup loop of `get_photo_assets`: keep the first occurrence of each
URL, preserving order. -/
def dedupGo (seen : List String) : List String → List String
  | [] => []
  | u :: us => if u ∈ seen then dedupGo seen us else u :: dedupGo (u :: seen) us

/-- `get_photo_assets` from app.py: background-image URLs of styled
descendants in document order, then the first link-preview image, then all
`<img src>` descendants in document order — each skipped when
`is_reaction_or_emoji` holds — deduplicated keeping first occurrences. -/
def get_photo_assets (d : Node) : List String :=
  let ds := descendantsOf d
  let bg := ds.filterMap (fun pr =>
    match pr.1.attr "style" with
    | none => none
    | some st =>
      match bgSearch st.data with
      | none => none
      | some u =>
        if is_reaction_or_emoji pr.1 pr.2 then none else some (⟨u⟩ : String))
  let preview := match ds.find? (fun pr =>
      pr.1.nameOf = "img" && (pr.1.attr "src").isSome
        && pr.2.any (fun a => a.nameOf = "a"
          && (classTokens a).contains "tgme_widget_message_link_preview")) with
    | some pr =>
      if is_reaction_or_emoji pr.1 pr.2 then [] else [(pr.1.attr "src").getD ""]
    | none => []
  let imgs := ds.filterMap (fun pr =>
    if pr.1.nameOf = "img" then
      match pr.1.attr "src" with
      | some u => if is_reaction_or_emoji pr.1 pr.2 then none else some u
      | none => none
    else none)
  dedupGo [] (bg ++ preview ++ imgs)

/-- Transcribed from the claim: a node is decorative when (1) any ancestor's
class list contains a reactions marker, (2) its own class list contains an
emoji marker, (3) its source path contains an emoji/sticker asset-path
marker, or (4) its inline style contains `emoji` or `sticker`. -/
def decorativeSpec (node : Node) (ancestors : List Node) : Bool :=
  ancestors.any (fun pr =>
    containsS (classJoined pr) "tgme_widget_message_reactions"
      || containsS (classJoined pr) "tgme_widget_message_reactions_small")
  || (["emoji", "tgme_widget_emoji", "emoji_image"].any
      (fun x => containsS (classJoined node) x))
  || (["/emoji/", "/stickers/", "emoji-static", "emoji-animated"].any
      (fun part => containsS ((node.attr "src").getD "") part))
  || containsS ((node.attr "style").getD "") "emoji"
  || containsS ((node.attr "style").getD "") "sticker"

/-- Transcribed from the claim: background-image URLs of non-decorative
styled elements, in document order. -/
def bgSpec (d : Node) : List String :=
  (descendantsOf d).filterMap (fun pr =>
    if decorativeSpec pr.1 pr.2 then none
    else match pr.1.attr "style" with
      | none => none
      | some st => (bgSearch st.data).map (fun u => (⟨u⟩ : String)))

/-- Transcribed from the claim: the link-preview image, if present and not
decorative. -/
def previewSpec (d : Node) : List String :=
  match (descendantsOf d).find? (fun pr =>
      pr.1.nameOf = "img" && (pr.1.attr "src").isSome
        && pr.2.any (fun a => a.nameOf = "a"
          && (classTokens a).contains "tgme_widget_message_link_preview")) with
  | some pr => if decorativeSpec pr.1 pr.2 then [] else [(pr.1.attr "src").getD ""]
  | none => []

/-- Transcribed from the claim: sources of the remaining non-decorative
`<img>` elements, in document order. -/
def imgSpec (d : Node) : List String :=
  (descendantsOf d).filterMap (fun pr =>
    if decorativeSpec pr.1 pr.2 then none
    else if pr.1.nameOf = "img" then pr.1.attr "src" else none)

/-- Transcribed from the claim: deduplicate keeping the first occurrence. -/
def dedupSpecFold (l : List String) : List String :=
  l.foldl (fun acc u => if u ∈ acc then acc else acc ++ [u]) []

/-- Python `str.strip`: drop leading and trailing ASCII whitespace. -/
def trimL (cs : List Char) : List Char :=
  ((cs.dropWhile isSpacePy).reverse.dropWhile isSpacePy).reverse

/-- One fueled scan of Python `str.replace` for a nonempty pattern: replace
each non-overlapping occurrence left to right (the fuel is the input length;
an empty pattern never occurs at the single call site, which replaces
`://t.me/`). -/
def replaceGo (pat rep : List Char) : Nat → List Char → List Char
  | _, [] => []
  | 0, cs => cs
  | n + 1, c :: cs =>
    if pat ≠ [] ∧ pat.isPrefixOf (c :: cs) then
      rep ++ replaceGo pat rep n (cs.drop (pat.length - 1))
    else c :: replaceGo pat rep n cs

/-- Python `str.replace` on strings. -/
def strReplace (s pat rep : String) : String :=
  ⟨replaceGo pat.data rep.data s.data.length s.data⟩

/-- `div.select_one("a.tgme_widget_message_date[href]")`: the first
descendant anchor with that class and an `href`. -/
def selectDateAnchor (d : Node) : Option (Node × List Node) :=
  (descendantsOf d).find? (fun pr =>
    pr.1.nameOf = "a" && (classTokens pr.1).contains "tgme_widget_message_date"
      && (pr.1.attr "href").isSome)

/-- `get_link` from app.py: the date anchor's `href` with `://t.me/`
rewritten to `://t.me/s/`, or nothing. -/
def get_link (d : Node) : Option String :=
  match selectDateAnchor d with
  | none => none
  | some pr => some (strReplace ((pr.1.attr "href").getD "") "://t.me/" "://t.me/s/")

/-- `div.select_one("div.tgme_widget_message_text")`. -/
def selectMsgText (d : Node) : Option Node :=
  ((descendantsOf d).find? (fun pr =>
    pr.1.nameOf = "div" && (classTokens pr.1).contains "tgme_widget_message_text")).map
    (fun pr => pr.1)

/-- `get_html` from app.py: the message-text div's `decode_contents` with the
minimal formatter, stripped, then absolutized against `https://t.me/`. -/
def get_html (d : Node) : String :=
  match selectMsgText d with
  | none => ""
  | some el => absolutize_links ⟨trimL (renderNodes el.childrenOf)⟩ "https://t.me/"

mutual
/-- The text fragments BeautifulSoup `get_text` collects, in document
order. -/
def textsNode : Node → List String
  | .text s => [s]
  | .comment _ => []
  | .elem _ _ c => textsList c
/-- `textsNode` over a sibling list. -/
def textsList : NodeList → List String
  | .nil => []
  | .cons x xs => textsNode x ++ textsList xs
end

/-- `get_plain_text` from app.py: `get_text(" ", strip=True)` of the
message-text div — each fragment stripped, empties dropped, joined with
single spaces. -/
def get_plain_text (d : Node) : String :=
  match selectMsgText d with
  | none => ""
  | some el => String.intercalate " "
      (((textsNode el).map (fun s => (⟨trimL s.data⟩ : String))).filter (fun s => s ≠ ""))

/-- `div.select_one("time.time[datetime]")`, yielding the `datetime`
attribute value. -/
def selectTimeAttr (d : Node) : Option String :=
  ((descendantsOf d).find? (fun pr =>
    pr.1.nameOf = "time" && (classTokens pr.1).contains "time"
      && (pr.1.attr "datetime").isSome)).map (fun pr => (pr.1.attr "datetime").getD "")

/-- `escape_attr` from app.py: replace each double quote by `&quot;`. -/
def escape_attr (s : String) : String := strReplace s ⟨[dqC]⟩ "&quot;"

/-- An RSS item as `build_item` constructs it.  `pubDate` is the timestamp
string (the claims never compare parsed dates, so `datetime.fromisoformat`
is modelled as the identity on the ISO string and `datetime.now()` as the
`now` parameter); the enclosure carries the URL and MIME type (its length is
the constant 0 in the source). -/
structure FeedItem where
  title : String
  link : String
  description : String
  pubDate : String
  guid : String
  guidIsPermaLink : Bool
  enclosureUrl : Option (String × String)
  contentEncoded : String
deriving DecidableEq

/-- `build_item` from app.py: no (or falsy) permalink yields no item;
otherwise the item's description is the sanitized first paragraph (or the
autolinked plain text wrapped in `<p>…</p>`) followed by one `<p><img …/></p>`
per photo, the content is the raw HTML plus media (or the bare link when both
are empty), and the first photo becomes the enclosure. -/
def build_item (now channel_name : String) (d : Node) : Option FeedItem :=
  match get_link d with
  | none => none
  | some link =>
    if link = "" then none
    else
      let pub := match selectTimeAttr d with
        | some ts => ts
        | none => now
      let raw_html := get_html d
      let first_para := if sanitize_keep_links raw_html = ""
        then "<p>" ++ autolink_plain (get_plain_text d) ++ "</p>"
        else sanitize_keep_links raw_html
      let photos := get_photo_assets d
      let media_html := String.join (photos.map (fun u =>
        "<p><img src=\"" ++ escape_attr u ++ "\" referrerpolicy=\"no-referrer\"/></p>"))
      some { title := "New post in channel @" ++ channel_name,
             link := link,
             description := first_para ++ media_html,
             pubDate := pub,
             guid := link,
             guidIsPermaLink := true,
             enclosureUrl := match photos with
               | [] => none
               | p :: _ => some (p, guess_mime p),
             contentEncoded := if raw_html = "" ∧ media_html = "" then link
               else raw_html ++ media_html }

/-- Scenario A bubble: permalink anchor to `https://t.me/mychan/42` and a
message-text div containing `Hello <a href="/x">world</a>`, no images. -/
def bubbleA : Node :=
  Node.elem "div" [("class", "tgme_widget_message_bubble")]
    (.cons (Node.elem "a" [("class", "tgme_widget_message_date"),
        ("href", "https://t.me/mychan/42")] .nil)
      (.cons (Node.elem "div" [("class", "tgme_widget_message_text")]
          (.cons (Node.text "Hello ")
            (.cons (Node.elem "a" [("href", "/x")] (.cons (Node.text "world") .nil)) .nil)))
        .nil))

/-- A bubble with no date anchor (no extractable permalink). -/
def bubbleNoLink : Node :=
  Node.elem "div" [("class", "tgme_widget_message_bubble")]
    (.cons (Node.elem "div" [] .nil) .nil)

/-- A bubble with only a date anchor: no timestamp, no message text, no
photos. -/
def bubbleBare : Node :=
  Node.elem "div" [("class", "tgme_widget_message_bubble")]
    (.cons (Node.elem "a" [("class", "tgme_widget_message_date"),
        ("href", "https://t.me/x/7")] .nil) .nil)

/-- Numeric value of a decimal digit character. -/
def digitVal (c : Char) : Nat := c.toNat - 48

/-- Both characters are decimal digits. -/
def twoDigOk (a b : Char) : Bool := a.isDigit && b.isDigit

/-- Days in a month of the proleptic Gregorian calendar (the validity check
`datetime` performs). -/
def daysInMonth (y m : Nat) : Nat :=
  if m = 2 then (if (y % 4 = 0 && !(y % 100 = 0)) || y % 400 = 0 then 29 else 28)
  else if m = 4 || m = 6 || m = 9 || m = 11 then 30 else 31

/-- Minutes part of a UTC offset: empty or `:MM`. -/
def validOffTail : List Char → Bool
  | [] => true
  | ':' :: m1 :: m2 :: [] => twoDigOk m1 m2 && digitVal m1 * 10 + digitVal m2 ≤ 59
  | _ => false

/-- A UTC offset: empty or `±HH[:MM]`. -/
def validOffset : List Char → Bool
  | [] => true
  | sign :: h1 :: h2 :: rest =>
    (sign = '+' || sign = '-') && twoDigOk h1 h2
      && digitVal h1 * 10 + digitVal h2 ≤ 23 && validOffTail rest
  | _ => false

/-- Fractional seconds: 3 or 6 digits, then an optional offset. -/
def validFrac (cs : List Char) : Bool :=
  ((cs.takeWhile Char.isDigit).length = 3 || (cs.takeWhile Char.isDigit).length = 6)
    && validOffset (cs.drop (cs.takeWhile Char.isDigit).length)

/-- After `SS`: an optional fraction, then an optional offset. -/
def validAfterSS : List Char → Bool
  | '.' :: rest => validFrac rest
  | cs => validOffset cs

/-- After `MM`: optional `:SS`, fraction, offset. -/
def validAfterMM : List Char → Bool
  | ':' :: s1 :: s2 :: rest =>
    twoDigOk s1 s2 && digitVal s1 * 10 + digitVal s2 ≤ 59 && validAfterSS rest
  | cs => validOffset cs

/-- After `HH`: optional `:MM`, seconds, fraction, offset. -/
def validAfterHH : List Char → Bool
  | ':' :: m1 :: m2 :: rest =>
    twoDigOk m1 m2 && digitVal m1 * 10 + digitVal m2 ≤ 59 && validAfterMM rest
  | cs => validOffset cs

/-- The time part `HH[:MM[:SS[.fff[fff]]]][±HH[:MM]]`. -/
def validTime : List Char → Bool
  | h1 :: h2 :: rest =>
    twoDigOk h1 h2 && digitVal h1 * 10 + digitVal h2 ≤ 23 && validAfterHH rest
  | _ => false

/-- The ISO-8601 timestamps `datetime.fromisoformat` accepts, in the forms
common to all supported Python versions (`YYYY-MM-DD[*HH[:MM[:SS
[.fff[fff]]]][±HH[:MM]]]`, the date calendar-checked, `*` any separator): a
sound subset — every string this recognizes, the program parses without
error. -/
def validIso (s : String) : Bool :=
  match s.data with
  | y1 :: y2 :: y3 :: y4 :: '-' :: m1 :: m2 :: '-' :: d1 :: d2 :: rest =>
    (y1.isDigit && y2.isDigit && y3.isDigit && y4.isDigit)
      && twoDigOk m1 m2 && twoDigOk d1 d2
      && (1 ≤ digitVal m1 * 10 + digitVal m2 && digitVal m1 * 10 + digitVal m2 ≤ 12)
      && (1 ≤ digitVal d1 * 10 + digitVal d2
          && digitVal d1 * 10 + digitVal d2
            ≤ daysInMonth
              (((digitVal y1 * 10 + digitVal y2) * 10 + digitVal y3) * 10 + digitVal y4)
              (digitVal m1 * 10 + digitVal m2))
      && 1 ≤ ((digitVal y1 * 10 + digitVal y2) * 10 + digitVal y3) * 10 + digitVal y4
      && (match rest with
          | [] => true
          | _ :: t => validTime t)
  | _ => false

/-- `build_item` including the `ValueError` that `datetime.fromisoformat`
raises on a present-but-malformed `datetime` attribute: `.error ()` models
the exception propagating out of `build_item` (caught as a 400 in
`lambda_handler`); `.ok none` is the silent skip, `.ok (some it)` a produced
item.  The permalink check comes first, as in the source, so a bubble
without a permalink never reaches the timestamp parse. -/
def build_itemE (now channel_name : String) (d : Node) : Except Unit (Option FeedItem) :=
  match get_link d with
  | none => .ok none
  | some link =>
    if link = "" then .ok none
    else match selectTimeAttr d with
      | some ts =>
        if validIso ts then .ok (build_item now channel_name d) else .error ()
      | none => .ok (build_item now channel_name d)

/-- A bubble with a date anchor and a valid timestamp, but no message text
and no photos. -/
def bubbleTimed : Node :=
  Node.elem "div" [("class", "tgme_widget_message_bubble")]
    (.cons (Node.elem "a" [("class", "tgme_widget_message_date"),
        ("href", "https://t.me/x/9")] .nil)
      (.cons (Node.elem "time" [("class", "time"),
          ("datetime", "2024-05-01T12:34:56+00:00")] .nil) .nil))

theorem dropLit_eq (ls : List Char) :
    ∀ cs r, dropLit ls cs = some r → cs = ls ++ r := by
  induction ls with
  | nil => intro cs r h; simp [dropLit] at h; simpa using h
  | cons l ls ih =>
    intro cs r h
    cases cs with
    | nil => simp [dropLit] at h
    | cons c cs =>
      by_cases hc : c = l
      · simp [dropLit, hc] at h
        simpa [hc] using congrArg (l :: ·) (ih cs r h)
      · simp [dropLit, hc] at h

theorem dropLit_self (ls : List Char) : ∀ r, dropLit ls (ls ++ r) = some r := by
  induction ls with
  | nil => intro r; rfl
  | cons l ls ih => intro r; simp [dropLit, ih]

theorem schemeAt_eq {cs sch r : List Char} (h : schemeAt cs = some (sch, r)) :
    cs = sch ++ r ∧ 7 ≤ sch.length := by
  unfold schemeAt at h
  cases h1 : dropLit "https://".data cs with
  | some r1 =>
    rw [h1] at h
    simp at h
    obtain ⟨hs, hr⟩ := h
    subst hs; subst hr
    exact ⟨dropLit_eq _ _ _ h1, by decide⟩
  | none =>
    rw [h1] at h
    cases h2 : dropLit "http://".data cs with
    | some r2 =>
      rw [h2] at h
      simp at h
      obtain ⟨hs, hr⟩ := h
      subst hs; subst hr
      exact ⟨dropLit_eq _ _ _ h2, by decide⟩
    | none => rw [h2] at h; simp at h

theorem urlMatchAt_spec {cs u rest : List Char} (h : urlMatchAt cs = some (u, rest)) :
    cs = u ++ rest ∧ rest.length < cs.length := by
  unfold urlMatchAt at h
  cases hs : schemeAt cs with
  | none => rw [hs] at h; simp at h
  | some p =>
    obtain ⟨sch, r⟩ := p
    rw [hs] at h
    obtain ⟨hcs, hlen⟩ := schemeAt_eq hs
    by_cases hrun : r.takeWhile urlChar = []
    · simp [hrun] at h
    · simp [hrun] at h
      obtain ⟨hu, hrest⟩ := h
      have hsplit : r.takeWhile urlChar ++ r.dropWhile urlChar = r :=
        List.takeWhile_append_dropWhile urlChar r
      constructor
      · rw [hcs, ← hu, ← hrest, List.append_assoc, hsplit]
      · rw [← hrest]
        have h1 : (r.dropWhile urlChar).length ≤ r.length := by
          have hl := congrArg List.length hsplit
          rw [List.length_append] at hl
          omega
        have h2 : r.length < cs.length := by
          rw [hcs, List.length_append]
          omega
        omega

theorem urlMatchAt_nil : urlMatchAt [] = none := by decide

theorem autolinkGo_fuel :
    ∀ n m cs, cs.length ≤ n → cs.length ≤ m → autolinkGo n cs = autolinkGo m cs := by
  intro n
  induction n with
  | zero =>
    intro m cs hn _
    have : cs = [] := List.length_eq_zero.mp (Nat.le_zero.mp hn)
    subst this
    cases m <;> rfl
  | succ n ih =>
    intro m cs hn hm
    cases cs with
    | nil => cases m <;> rfl
    | cons c cs =>
      cases m with
      | zero => simp at hm
      | succ m =>
        show autolinkGo (n + 1) (c :: cs) = autolinkGo (m + 1) (c :: cs)
        simp only [autolinkGo]
        cases hu : urlMatchAt (c :: cs) with
        | none =>
          have h1 : cs.length ≤ n := by simpa using hn
          have h2 : cs.length ≤ m := by simpa using hm
          show escChar c ++ autolinkGo n cs = escChar c ++ autolinkGo m cs
          rw [ih m cs h1 h2]
        | some p =>
          obtain ⟨url, rest⟩ := p
          have hlt := (urlMatchAt_spec hu).2
          simp only [List.length_cons] at hlt hn hm
          show anchorL url ++ autolinkGo n rest = anchorL url ++ autolinkGo m rest
          rw [ih m rest (by omega) (by omega)]

theorem autolinkL_match {cs u rest : List Char} (h : urlMatchAt cs = some (u, rest)) :
    autolinkL cs = anchorL u ++ autolinkL rest := by
  cases cs with
  | nil => rw [urlMatchAt_nil] at h; cases h
  | cons c cs =>
    have hlt := (urlMatchAt_spec h).2
    simp only [List.length_cons] at hlt
    show autolinkGo (cs.length + 1) (c :: cs) = _
    simp only [autolinkGo, h]
    rw [autolinkGo_fuel cs.length rest.length rest (by omega) (by omega)]
    rfl

theorem autolinkL_step {c : Char} {cs : List Char} (h : urlMatchAt (c :: cs) = none) :
    autolinkL (c :: cs) = escChar c ++ autolinkL cs := by
  show autolinkGo (cs.length + 1) (c :: cs) = _
  simp only [autolinkGo, h]
  rfl

theorem htmlEscapeL_append (a b : List Char) :
    htmlEscapeL (a ++ b) = htmlEscapeL a ++ htmlEscapeL b := by
  simp [htmlEscapeL]

theorem htmlEscapeL_cons (c : Char) (cs : List Char) :
    htmlEscapeL (c :: cs) = escChar c ++ htmlEscapeL cs := by
  simp [htmlEscapeL]

theorem escChar_no_angle (c : Char) : ∀ x ∈ escChar c, x ≠ '<' ∧ x ≠ '>' := by
  unfold escChar
  split_ifs with h1 h2 h3 h4 h5
  · decide
  · decide
  · decide
  · decide
  · decide
  · intro x hx
    simp at hx
    subst hx
    exact ⟨h2, h3⟩

theorem htmlEscapeL_no_angle (l : List Char) :
    ∀ x ∈ htmlEscapeL l, x ≠ '<' ∧ x ≠ '>' := by
  intro x hx
  simp only [htmlEscapeL, List.mem_flatten, List.mem_map] at hx
  obtain ⟨ys, ⟨c, _, hc⟩, hy⟩ := hx
  subst hc
  exact escChar_no_angle c x hy

theorem stripAGo_cons_ne {c : Char} (h : c ≠ '<') (cs : List Char) :
    stripAGo false (c :: cs) = c :: stripAGo false cs := by
  cases cs with
  | nil => simp [stripAGo]
  | cons c2 cs2 => simp [stripAGo, h]

theorem stripAGo_append_safe {l : List Char} (h : ∀ c ∈ l, c ≠ '<') (s : List Char) :
    stripAGo false (l ++ s) = l ++ stripAGo false s := by
  induction l with
  | nil => simp
  | cons c l ih =>
    rw [List.cons_append, stripAGo_cons_ne (h c (by simp)),
      ih (fun x hx => h x (by simp [hx]))]
    rfl

theorem stripAGo_true_consume {l : List Char} (h : ∀ c ∈ l, c ≠ '>') (s : List Char) :
    stripAGo true (l ++ '>' :: s) = stripAGo false s := by
  induction l with
  | nil => simp [stripAGo]
  | cons c l ih =>
    rw [List.cons_append]
    show stripAGo true (c :: (l ++ '>' :: s)) = _
    have hc : c ≠ '>' := h c (by simp)
    simp only [stripAGo, if_neg hc]
    exact ih (fun x hx => h x (by simp [hx]))

theorem stripAGo_open_tag (x : List Char) :
    stripAGo false ('<' :: 'a' :: x) = stripAGo true x := by
  simp [stripAGo]

theorem strip_anchor (u : List Char) (s : List Char) :
    stripAGo false (anchorL u ++ s) = htmlEscapeL u ++ stripAGo false s := by
  have hmid : "\" rel=\"noopener\" target=\"_blank\">".data
      = "\" rel=\"noopener\" target=\"_blank\"".data ++ ['>'] := by decide
  have hopen : "<a href=\"".data = '<' :: 'a' :: " href=\"".data := by decide
  have hclose : "</a>".data = '<' :: '/' :: 'a' :: '>' :: ([] : List Char) := by decide
  calc stripAGo false (anchorL u ++ s)
      = stripAGo false ('<' :: 'a' ::
          ((" href=\"".data ++ htmlEscapeL u
            ++ "\" rel=\"noopener\" target=\"_blank\"".data)
           ++ '>' :: (htmlEscapeL u ++ "</a>".data ++ s))) := by
        unfold anchorL
        rw [hmid, hopen]
        simp [List.append_assoc]
    _ = stripAGo false (htmlEscapeL u ++ "</a>".data ++ s) := by
        rw [stripAGo_open_tag, stripAGo_true_consume]
        intro c hc
        simp only [List.mem_append] at hc
        rcases hc with (hc | hc) | hc
        · revert c; decide
        · exact (htmlEscapeL_no_angle u c hc).2
        · revert c; decide
    _ = htmlEscapeL u ++ stripAGo false ("</a>".data ++ s) := by
        rw [List.append_assoc]
        exact stripAGo_append_safe (fun c hc => (htmlEscapeL_no_angle u c hc).1) _
    _ = htmlEscapeL u ++ stripAGo false s := by
        have hstep : stripAGo false ("</a>".data ++ s) = stripAGo false s := by
          show stripAGo false ('<' :: '/' :: ('a' :: '>' :: s)) = stripAGo false s
          have h1 : stripAGo false ('<' :: '/' :: ('a' :: '>' :: s))
              = stripAGo true ('a' :: '>' :: s) := by simp [stripAGo]
          rw [h1]
          exact stripAGo_true_consume (l := ['a']) (by decide) s
        rw [hstep]

theorem strip_autolinkL : ∀ n cs, cs.length ≤ n →
    stripAGo false (autolinkL cs) = htmlEscapeL cs := by
  intro n
  induction n with
  | zero =>
    intro cs h
    have : cs = [] := List.length_eq_zero.mp (Nat.le_zero.mp h)
    subst this
    rfl
  | succ n ih =>
    intro cs h
    cases cs with
    | nil => rfl
    | cons c cs =>
      cases hu : urlMatchAt (c :: cs) with
      | some p =>
        obtain ⟨u, rest⟩ := p
        obtain ⟨hdecomp, hlt⟩ := urlMatchAt_spec hu
        rw [autolinkL_match hu, strip_anchor, hdecomp, htmlEscapeL_append]
        congr 1
        exact ih rest (by simp only [List.length_cons] at h hlt; omega)
      | none =>
        rw [autolinkL_step hu, stripAGo_append_safe (fun x hx => (escChar_no_angle c x hx).1)]
        rw [htmlEscapeL_cons]
        congr 1
        exact ih cs (by simp only [List.length_cons] at h; omega)

/-- C3: for every input text, stripping all `<a>` tags from the output of
`autolink_plain` yields exactly the HTML-escaped form of the input text
(content-preservation law). -/
theorem C3_autolink_content_preservation (t : String) :
    stripATags (autolink_plain t) = html_escape t := by
  unfold autolink_plain
  by_cases ht : t = ""
  · subst ht; rfl
  · simp only [if_neg ht]
    unfold stripATags html_escape
    exact congrArg String.mk (strip_autolinkL t.data.length t.data le_rfl)

theorem schemeAt_cases {cs sch r : List Char} (h : schemeAt cs = some (sch, r)) :
    sch = "https://".data ∨ sch = "http://".data := by
  unfold schemeAt at h
  cases h1 : dropLit "https://".data cs with
  | some r1 => rw [h1] at h; simp at h; exact Or.inl h.1.symm
  | none =>
    rw [h1] at h
    cases h2 : dropLit "http://".data cs with
    | some r2 => rw [h2] at h; simp at h; exact Or.inr h.1.symm
    | none => rw [h2] at h; simp at h

theorem schemeAt_https (y : List Char) :
    schemeAt ("https://".data ++ y) = some ("https://".data, y) := by
  unfold schemeAt
  rw [dropLit_self]

theorem schemeAt_http (y : List Char) :
    schemeAt ("http://".data ++ y) = some ("http://".data, y) := by
  unfold schemeAt
  have h1 : dropLit "https://".data ("http://".data ++ y) = none := by
    show dropLit "https://".data ('h' :: 't' :: 't' :: 'p' :: ':' :: '/' :: '/' :: y) = none
    simp [dropLit]
  rw [h1, dropLit_self]

theorem takeWhile_all_append {p : Char → Bool} :
    ∀ (r post : List Char),
    (∀ c ∈ r, p c = true) → (∀ c, post.head? = some c → p c = false) →
    (r ++ post).takeWhile p = r ∧ (r ++ post).dropWhile p = post := by
  intro r
  induction r with
  | nil =>
    intro post _ hpost
    cases post with
    | nil => exact ⟨rfl, rfl⟩
    | cons c cs =>
      have hc : p c = false := hpost c rfl
      simp [List.takeWhile, List.dropWhile, hc]
  | cons c r ih =>
    intro post hall hpost
    have hc : p c = true := hall c (by simp)
    have := ih post (fun x hx => hall x (by simp [hx])) hpost
    simp [List.takeWhile, List.dropWhile, hc, this.1, this.2]

theorem urlMatchAt_whole {url : List Char} (h : urlMatchAt url = some (url, []))
    (post : List Char) (hpost : ∀ c, post.head? = some c → urlChar c = false) :
    urlMatchAt (url ++ post) = some (url, post) := by
  unfold urlMatchAt at h
  cases hs : schemeAt url with
  | none => rw [hs] at h; cases h
  | some p =>
    obtain ⟨sch, r⟩ := p
    rw [hs] at h
    obtain ⟨hcs, _⟩ := schemeAt_eq hs
    have hred : (if r.takeWhile urlChar = [] then none
        else some (sch ++ r.takeWhile urlChar, r.dropWhile urlChar))
        = some (url, ([] : List Char)) := h
    by_cases hrun : r.takeWhile urlChar = []
    · rw [if_pos hrun] at hred; cases hred
    · rw [if_neg hrun] at hred
      have h' := Option.some.inj hred
      have hu : sch ++ r.takeWhile urlChar = url := congrArg Prod.fst h'
      have hrest : r.dropWhile urlChar = [] := congrArg Prod.snd h'
      have htakeR : r.takeWhile urlChar = r := by
        conv_rhs => rw [← List.takeWhile_append_dropWhile urlChar r, hrest, List.append_nil]
      have hall : ∀ c ∈ r, urlChar c = true := by
        intro c hc
        rw [← htakeR] at hc
        exact List.mem_takeWhile_imp hc
      have htw := takeWhile_all_append r post hall hpost
      have hscheme2 : schemeAt (url ++ post) = some (sch, r ++ post) := by
        rcases schemeAt_cases hs with hss | hss
        · subst hss
          rw [hcs, List.append_assoc]
          exact schemeAt_https (r ++ post)
        · subst hss
          rw [hcs, List.append_assoc]
          exact schemeAt_http (r ++ post)
      have hrne : r ≠ [] := by
        intro hre
        apply hrun
        rw [hre]
        simp
      have hfinal : urlMatchAt (url ++ post)
          = (if (r ++ post).takeWhile urlChar = [] then none
             else some (sch ++ (r ++ post).takeWhile urlChar,
               (r ++ post).dropWhile urlChar)) := by
        unfold urlMatchAt
        rw [hscheme2]
      rw [hfinal, htw.1, htw.2, if_neg hrne, ← hu, htakeR]

theorem autolink_noUrl : ∀ cs : List Char,
    (∀ i, i < cs.length → urlMatchAt (cs.drop i) = none) →
    autolinkL cs = htmlEscapeL cs := by
  intro cs
  induction cs with
  | nil => intro _; rfl
  | cons c cs ih =>
    intro h
    have h0 : urlMatchAt (c :: cs) = none := by
      have := h 0 (by simp)
      simpa using this
    rw [autolinkL_step h0, htmlEscapeL_cons, ih]
    intro i hi
    have := h (i + 1) (by simp; omega)
    simpa using this

theorem autolink_decompL : ∀ pre url post : List Char,
    urlMatchAt url = some (url, []) →
    (∀ i, i < pre.length → urlMatchAt (pre.drop i ++ url ++ post) = none) →
    (∀ c, post.head? = some c → urlChar c = false) →
    autolinkL (pre ++ url ++ post) = htmlEscapeL pre ++ anchorL url ++ autolinkL post := by
  intro pre
  induction pre with
  | nil =>
    intro url post hu _ hpost
    have hm := urlMatchAt_whole hu post hpost
    simp only [List.nil_append]
    rw [autolinkL_match hm]
    rfl
  | cons c pre ih =>
    intro url post hu hpre hpost
    have h0 : urlMatchAt ((c :: pre) ++ url ++ post) = none := by
      have := hpre 0 (by simp)
      simpa using this
    have hstep : autolinkL ((c :: pre) ++ url ++ post)
        = escChar c ++ autolinkL (pre ++ url ++ post) := by
      have : (c :: pre) ++ url ++ post = c :: (pre ++ url ++ post) := by simp
      rw [this] at h0 ⊢
      exact autolinkL_step h0
    rw [hstep, ih url post hu (fun i hi => by
        have := hpre (i + 1) (by simp; omega)
        simpa using this) hpost]
    rw [htmlEscapeL_cons]
    simp [List.append_assoc]

theorem autolink_plain_eq (t : String) : autolink_plain t = ⟨autolinkL t.data⟩ := by
  unfold autolink_plain
  by_cases h : t = ""
  · subst h; rfl
  · rw [if_neg h]

/-- C4: the Autolinker escapes all text outside recognized URL spans, replaces
each contiguous URL span (greedy `http(s)://` plus non-whitespace,
non-angle-bracket, non-quote characters) by an anchor whose href and visible
text are the attribute-escaped URL carrying `rel="noopener"` and
`target="_blank"`, and maps empty input to the empty string.  The second
conjunct covers inputs with no URL span; the third is the decomposition law
for one leftmost URL span (the remaining input is processed recursively). -/
theorem C4_autolinker_contract :
    autolink_plain "" = "" ∧
    (∀ t : String, (∀ i, i < t.data.length → urlMatchAt (t.data.drop i) = none) →
      autolink_plain t = html_escape t) ∧
    (∀ pre url post : String,
      urlMatchAt url.data = some (url.data, []) →
      (∀ i, i < pre.data.length →
        urlMatchAt (pre.data.drop i ++ url.data ++ post.data) = none) →
      (∀ c, post.data.head? = some c → urlChar c = false) →
      autolink_plain (pre ++ url ++ post) =
        html_escape pre
          ++ "<a href=\"" ++ html_escape url
          ++ "\" rel=\"noopener\" target=\"_blank\">"
          ++ html_escape url ++ "</a>"
          ++ autolink_plain post) := by
  refine ⟨rfl, ?_, ?_⟩
  · intro t ht
    by_cases h0 : t = ""
    · subst h0; rfl
    · unfold autolink_plain html_escape
      rw [if_neg h0]
      exact congrArg String.mk (autolink_noUrl t.data ht)
  · intro pre url post hu hpre hpost
    rw [autolink_plain_eq (pre ++ url ++ post), autolink_plain_eq post]
    apply String.ext
    show autolinkL ((pre ++ url ++ post).data) = _
    rw [String.data_append, String.data_append]
    rw [autolink_decompL pre.data url.data post.data hu hpre hpost]
    simp [String.data_append, html_escape, anchorL, List.append_assoc]

/-- Witness for C4: a concrete input with one URL span and surrounding text,
and a concrete input with no URL span. -/
theorem C4_witness :
    autolink_plain ("see " ++ "https://a.b/c" ++ " & x") =
      html_escape "see "
        ++ "<a href=\"" ++ html_escape "https://a.b/c"
        ++ "\" rel=\"noopener\" target=\"_blank\">"
        ++ html_escape "https://a.b/c" ++ "</a>"
        ++ autolink_plain " & x" ∧
    autolink_plain "a < b & c" = html_escape "a < b & c" := by
  constructor
  · exact C4_autolinker_contract.2.2 "see " "https://a.b/c" " & x"
      (by decide) (by decide) (by decide)
  · exact C4_autolinker_contract.2.1 "a < b & c" (by decide)

theorem endsWith_excl {u a b : String}
    (h1 : ¬ (a.data <:+ b.data)) (h2 : ¬ (b.data <:+ a.data))
    (ha : endsWithS u a = true) : endsWithS u b = false := by
  rw [endsWithS, decide_eq_true_eq] at ha
  rw [endsWithS, decide_eq_false_iff_not]
  intro hb
  rcases List.suffix_or_suffix_of_suffix ha hb with h | h
  · exact h1 h
  · exact h2 h

/-- C10: MIME inference is case-insensitive on the URL (it depends only on the
lower-cased URL) and total: `.jpg`/`.jpeg` map to `image/jpeg`, `.png` to
`image/png`, `.webp` to `image/webp`, `.gif` to `image/gif`, and every other
URL (including query strings after the extension or no extension) maps to
`application/octet-stream`, so an enclosure's MIME type is never absent. -/
theorem C10_guess_mime_total (url : String) :
    (∀ v, lowerStr url = lowerStr v → guess_mime url = guess_mime v) ∧
    (endsWithS (lowerStr url) ".jpg" = true ∨ endsWithS (lowerStr url) ".jpeg" = true →
      guess_mime url = "image/jpeg") ∧
    (endsWithS (lowerStr url) ".png" = true → guess_mime url = "image/png") ∧
    (endsWithS (lowerStr url) ".webp" = true → guess_mime url = "image/webp") ∧
    (endsWithS (lowerStr url) ".gif" = true → guess_mime url = "image/gif") ∧
    (endsWithS (lowerStr url) ".jpg" = false → endsWithS (lowerStr url) ".jpeg" = false →
     endsWithS (lowerStr url) ".png" = false → endsWithS (lowerStr url) ".webp" = false →
     endsWithS (lowerStr url) ".gif" = false →
      guess_mime url = "application/octet-stream") ∧
    guess_mime url ∈
      ["image/jpeg", "image/png", "image/webp", "image/gif", "application/octet-stream"] := by
  refine ⟨?_, ?_, ?_, ?_, ?_, ?_, ?_⟩
  · intro v h
    unfold guess_mime
    rw [h]
  · intro h
    rcases h with h | h <;> simp [guess_mime, h]
  · intro h
    have hjpg := endsWith_excl (a := ".png") (b := ".jpg") (by decide) (by decide) h
    have hjpeg := endsWith_excl (a := ".png") (b := ".jpeg") (by decide) (by decide) h
    simp [guess_mime, h, hjpg, hjpeg]
  · intro h
    have hjpg := endsWith_excl (a := ".webp") (b := ".jpg") (by decide) (by decide) h
    have hjpeg := endsWith_excl (a := ".webp") (b := ".jpeg") (by decide) (by decide) h
    have hpng := endsWith_excl (a := ".webp") (b := ".png") (by decide) (by decide) h
    simp [guess_mime, h, hjpg, hjpeg, hpng]
  · intro h
    have hjpg := endsWith_excl (a := ".gif") (b := ".jpg") (by decide) (by decide) h
    have hjpeg := endsWith_excl (a := ".gif") (b := ".jpeg") (by decide) (by decide) h
    have hpng := endsWith_excl (a := ".gif") (b := ".png") (by decide) (by decide) h
    have hwebp := endsWith_excl (a := ".gif") (b := ".webp") (by decide) (by decide) h
    simp [guess_mime, h, hjpg, hjpeg, hpng, hwebp]
  · intro h1 h2 h3 h4 h5
    simp [guess_mime, h1, h2, h3, h4, h5]
  · unfold guess_mime
    split_ifs <;> simp

/-- Witness for C10: concrete URLs exercising the uppercase extension, the
query-string fallback and the plain extension cases. -/
theorem C10_witness :
    guess_mime "photo.JPG" = "image/jpeg" ∧
    guess_mime "x.png?y=1" = "application/octet-stream" ∧
    guess_mime "a.WebP" = "image/webp" := by
  refine ⟨?_, ?_, ?_⟩
  · exact (C10_guess_mime_total "photo.JPG").2.1 (Or.inl (by decide))
  · exact (C10_guess_mime_total "x.png?y=1").2.2.2.2.2.1
      (by decide) (by decide) (by decide) (by decide) (by decide)
  · exact (C10_guess_mime_total "a.WebP").2.2.2.1 (by decide)

theorem subGo_step_none {k : List Char} {q : Char} {base : String} {c : Char}
    {cs : List Char} {n : Nat} (h : attrMatchAt k q (c :: cs) = none) :
    subGo k q base (n + 1) (c :: cs) = c :: subGo k q base n cs := by
  show (match attrMatchAt k q (c :: cs) with
    | some (v, rest) => replOf k q base v ++ subGo k q base n rest
    | none => c :: subGo k q base n cs) = _
  rw [h]

theorem subGo_id (k : List Char) (q : Char) (base : String) :
    ∀ n (cs : List Char), cs.length ≤ n →
    (∀ i, i < cs.length → attrMatchAt k q (cs.drop i) = none) →
    subGo k q base n cs = cs := by
  intro n
  induction n with
  | zero =>
    intro cs hl _
    have : cs = [] := List.length_eq_zero.mp (Nat.le_zero.mp hl)
    subst this
    rfl
  | succ n ih =>
    intro cs hl h
    cases cs with
    | nil => rfl
    | cons c cs =>
      have h0 : attrMatchAt k q (c :: cs) = none := by simpa using h 0 (by simp)
      rw [subGo_step_none h0, ih cs (by simpa using hl)]
      intro i hi
      simpa using h (i + 1) (by simp; omega)

theorem subPass_id {k : List Char} {q : Char} (base : String) {cs : List Char}
    (h : NoPassMatchL k q cs) : subPass k q base cs = cs :=
  subGo_id k q base cs.length cs le_rfl h

/-- Shared helper: a fragment with no pattern occurrence for any of the four
key/quote combinations passes through `absolutize_links` unchanged. -/
theorem absolutize_id (html : String) (base : String)
    (h : ∀ p ∈ attrCombos, NoPassMatchL p.1 p.2 html.data) :
    absolutize_links html base = html := by
  unfold absolutize_links
  rw [subPass_id base (h ("href".data, dqC) (by simp [attrCombos])),
    subPass_id base (h ("href".data, sqC) (by simp [attrCombos])),
    subPass_id base (h ("src".data, dqC) (by simp [attrCombos])),
    subPass_id base (h ("src".data, sqC) (by simp [attrCombos]))]

/-- C9 counterexample: resolving twice is not the same as resolving once.  In
the fragment `href="/phref="/y"` the first pass rewrites the value `/phref=`
to `https://t.me/phref=`; the replacement's trailing `href=` together with
the closing quote and the following text `/y"` spells a fresh
`href="/y"` occurrence that the scan (which resumes after each replacement)
never sees, so a second application rewrites further. -/
theorem C9_counterexample :
    absolutize_links (absolutize_links "href=\"/phref=\"/y\"" "https://t.me/")
        "https://t.me/"
      ≠ absolutize_links "href=\"/phref=\"/y\"" "https://t.me/" := by decide

/-- C9 amended: applying the URL Resolver twice yields the same result as
applying it once whenever the once-resolved fragment contains no further
quoted `href`/`src` value starting with `/` (which rewriting can create at
replacement boundaries, as the counterexample shows); in particular a
fragment whose `href`/`src` values are all already absolute is left
unchanged. -/
theorem C9_resolver_idempotent_when_stable (html base : String)
    (h : ∀ pr ∈ attrCombos, NoPassMatchL pr.1 pr.2 (absolutize_links html base).data) :
    absolutize_links (absolutize_links html base) base = absolutize_links html base :=
  absolutize_id (absolutize_links html base) base h

/-- Witness for the amended C9: a concrete fragment whose single relative
href is absolutized once and then stays fixed. -/
theorem C9_witness :
    absolutize_links (absolutize_links "<a href=\"/x\">t</a>" "https://t.me/")
        "https://t.me/"
      = absolutize_links "<a href=\"/x\">t</a>" "https://t.me/" :=
  C9_resolver_idempotent_when_stable "<a href=\"/x\">t</a>" "https://t.me/" (by decide)

theorem safeList_append : ∀ (a b : NodeList),
    safeList (NodeList.append a b) = (safeList a && safeList b)
  | .nil, b => by simp [NodeList.append, safeList]
  | .cons x xs, b => by
    simp [NodeList.append, safeList, safeList_append xs b, Bool.and_assoc]

theorem san_safe :
    (∀ n : Node, safeList (sanNode n) = true) ∧
    (∀ l : NodeList, safeList (sanList l) = true) := by
  have htext : ∀ s : String, safeList (sanNode (.text s)) = true := by
    intro s
    simp [sanNode, safeList, safeNode]
  have helem : ∀ (name : String) (attrs : List (String × String)) (children : NodeList),
      safeList (sanList children) = true →
      safeList (sanNode (.elem name attrs children)) = true := by
    intro name attrs children ih
    by_cases ha : name = "a"
    · subst ha
      simp only [sanNode, if_pos rfl, safeList, safeNode, ih, Bool.and_true]
      simp [sanitizeAttrs]
      cases getAttr attrs "href" with
      | none => simp
      | some h =>
        by_cases hh : h = "" <;> simp [hh]
    · by_cases hb : name = "br"
      · subst hb
        simp only [sanNode, if_neg ha, if_pos rfl, safeList, safeNode, ih, Bool.and_true]
        simp
      · simpa [sanNode, ha, hb] using ih
  have hcomment : ∀ s : String, safeList (sanNode (.comment s)) = true := by
    intro s
    simp [sanNode, safeList, safeNode]
  have hnil : safeList (sanList .nil) = true := rfl
  have hcons : ∀ (x : Node) (xs : NodeList),
      safeList (sanNode x) = true → safeList (sanList xs) = true →
      safeList (sanList (.cons x xs)) = true := by
    intro x xs ihx ihxs
    show safeList (NodeList.append (sanNode x) (sanList xs)) = true
    rw [safeList_append, ihx, ihxs]
    rfl
  exact ⟨@Node.rec (fun n => safeList (sanNode n) = true)
      (fun l => safeList (sanList l) = true) htext helem hcomment hnil hcons,
    @NodeList.rec (fun n => safeList (sanNode n) = true)
      (fun l => safeList (sanList l) = true) htext helem hcomment hnil hcons⟩

/-- C1 (amended): for every HTML fragment, the sanitizer's output tree
contains only `a`, `br`, comment and text nodes, every `a` carries at most
`href`, `rel`, `target`, and the output string is the `str()`-join
serialization of that tree wrapped in `<p>…</p>`, or empty.  The claim's
stronger form fails twice: the source keeps `<br>` tags verbatim together
with their attributes (Python `continue`), and the final
`"".join(str(x) for x in container.contents)` emits top-level text and
comment children raw (parse-decoded, never re-escaped), so escaped markup in
the input reappears live in the output (`C1_counterexample`). -/
theorem C1_sanitizer_safety (html : String) :
    safeList (sanList (parseHTML html)) = true ∧
    (sanitize_keep_links html = ""
      ∨ sanitize_keep_links html
          = ⟨'<' :: 'p' :: '>' :: renderTopNodes (sanList (parseHTML html)) ++ "</p>".data⟩) := by
  refine ⟨san_safe.2 (parseHTML html), ?_⟩
  unfold sanitize_keep_links
  by_cases h1 : html = ""
  · exact Or.inl (by rw [if_pos h1])
  · rw [if_neg h1]
    by_cases h2 : renderTopNodes (sanList (parseHTML html)) = []
    · exact Or.inl (by rw [if_pos h2])
    · exact Or.inr (by rw [if_neg h2])

/-- C1 counterexample: a `<br>` with an attribute passes through the
sanitizer verbatim, so the output is not limited to `href`/`src`/`rel`/
`target` attributes and a `br` can carry attributes (even script-capable
ones like `onclick`); and escaped markup in the input is re-emitted raw by
the final `str()`-join, so the sanitizer is not an escaping serializer. -/
theorem C1_counterexample :
    sanitize_keep_links "<br onclick=\"evil()\">"
        = "<p><br onclick=\"evil()\"/></p>" ∧
    claimSafeList (sanList (parseHTML "<br onclick=\"evil()\">")) = false ∧
    sanitize_keep_links "&lt;script&gt;x&lt;/script&gt;"
        = "<p><script>x</script></p>" := by
  refine ⟨?_, ?_, ?_⟩
  · rfl
  · rfl
  · rfl

theorem filterMap_congr_fn {α β : Type} (f g : α → Option β) (l : List α)
    (h : ∀ x, f x = g x) : l.filterMap f = l.filterMap g := by
  have : f = g := funext h
  rw [this]

theorem dedupGo_eq_fold : ∀ (l seen acc : List String),
    (∀ u, u ∈ seen ↔ u ∈ acc) →
    acc ++ dedupGo seen l
      = List.foldl (fun acc u => if u ∈ acc then acc else acc ++ [u]) acc l := by
  intro l
  induction l with
  | nil => intro seen acc _; simp [dedupGo]
  | cons u us ih =>
    intro seen acc hiff
    by_cases hu : u ∈ seen
    · rw [List.foldl_cons, if_pos ((hiff u).mp hu)]
      simp only [dedupGo, if_pos hu]
      exact ih seen acc hiff
    · rw [List.foldl_cons, if_neg (fun hm => hu ((hiff u).mpr hm))]
      simp only [dedupGo, if_neg hu]
      rw [← ih (u :: seen) (acc ++ [u]) (by
        intro v
        simp [hiff v, or_comm])]
      simp

theorem dedupGo_nodup : ∀ (l seen : List String),
    (dedupGo seen l).Nodup ∧ ∀ u ∈ dedupGo seen l, u ∉ seen := by
  intro l
  induction l with
  | nil => intro seen; simp [dedupGo]
  | cons v vs ih =>
    intro seen
    by_cases hv : v ∈ seen
    · simp only [dedupGo, if_pos hv]
      exact ih seen
    · simp only [dedupGo, if_neg hv]
      obtain ⟨hnd, hmem⟩ := ih (v :: seen)
      refine ⟨List.nodup_cons.mpr ⟨fun hm => (hmem v hm) (by simp), hnd⟩, ?_⟩
      intro u hu
      simp only [List.mem_cons] at hu
      rcases hu with rfl | hu
      · exact hv
      · exact fun hs => (hmem u hu) (by simp [hs])

theorem dedupGo_sublist : ∀ (l seen : List String), List.Sublist (dedupGo seen l) l := by
  intro l
  induction l with
  | nil => intro seen; simp [dedupGo]
  | cons v vs ih =>
    intro seen
    by_cases hv : v ∈ seen
    · simp only [dedupGo, if_pos hv]
      exact List.Sublist.cons v (ih seen)
    · simp only [dedupGo, if_neg hv]
      exact List.Sublist.cons₂ v (ih (v :: seen))

theorem dedupGo_mem : ∀ (l seen : List String) (u : String),
    u ∈ dedupGo seen l ↔ (u ∈ l ∧ u ∉ seen) := by
  intro l
  induction l with
  | nil => intro seen u; simp [dedupGo]
  | cons v vs ih =>
    intro seen u
    by_cases hv : v ∈ seen
    · simp only [dedupGo, if_pos hv, ih, List.mem_cons]
      constructor
      · rintro ⟨hu, hs⟩
        exact ⟨Or.inr hu, hs⟩
      · rintro ⟨hu | hu, hs⟩
        · rw [hu] at hs
          exact absurd hv hs
        · exact ⟨hu, hs⟩
    · simp only [dedupGo, if_neg hv, List.mem_cons, ih]
      constructor
      · rintro (rfl | ⟨hu, hs⟩)
        · exact ⟨Or.inl rfl, hv⟩
        · push_neg at hs
          exact ⟨Or.inr hu, hs.2⟩
      · rintro ⟨hu | hu, hs⟩
        · exact Or.inl hu
        · by_cases huv : u = v
          · exact Or.inl huv
          · refine Or.inr ⟨hu, ?_⟩
            push_neg
            exact ⟨huv, hs⟩

/-- C2: for every message bubble, `get_photo_assets` equals the claim-side
description — decorative nodes (reactions-bar ancestor, emoji class,
emoji/sticker source path, emoji/sticker style) excluded, background-image
elements in document order, then the link-preview image, then the remaining
`<img>` elements, deduplicated keeping the first occurrence — and the result
has no duplicates, contains exactly the URLs of that collection, and is an
order-preserving subsequence of it (first occurrence wins). -/
theorem photo_decomp (d : Node) :
    get_photo_assets d = dedupGo [] (bgSpec d ++ previewSpec d ++ imgSpec d) := by
  have hdeco : ∀ nd anc, is_reaction_or_emoji nd anc = decorativeSpec nd anc := by
    intro nd anc
    rfl
  have hbg : (descendantsOf d).filterMap (fun pr =>
      match pr.1.attr "style" with
      | none => none
      | some st =>
        match bgSearch st.data with
        | none => none
        | some u =>
          if is_reaction_or_emoji pr.1 pr.2 then none else some (⟨u⟩ : String))
      = bgSpec d := by
    unfold bgSpec
    apply filterMap_congr_fn
    intro pr
    cases hst : pr.1.attr "style" with
    | none => by_cases hdec : decorativeSpec pr.1 pr.2 <;> simp [hst, hdec]
    | some st =>
      cases hs : bgSearch st.data with
      | none => by_cases hdec : decorativeSpec pr.1 pr.2 <;> simp [hst, hs, hdec]
      | some u =>
        by_cases hdec : decorativeSpec pr.1 pr.2 <;>
          simp [hst, hs, hdec, hdeco]
  have hpreview : (match (descendantsOf d).find? (fun pr =>
      pr.1.nameOf = "img" && (pr.1.attr "src").isSome
        && pr.2.any (fun a => a.nameOf = "a"
          && (classTokens a).contains "tgme_widget_message_link_preview")) with
    | some pr =>
      if is_reaction_or_emoji pr.1 pr.2 then [] else [(pr.1.attr "src").getD ""]
    | none => ([] : List String)) = previewSpec d := by
    unfold previewSpec
    simp only [hdeco]
  have himg : (descendantsOf d).filterMap (fun pr =>
      if pr.1.nameOf = "img" then
        match pr.1.attr "src" with
        | some u => if is_reaction_or_emoji pr.1 pr.2 then none else some u
        | none => none
      else none) = imgSpec d := by
    unfold imgSpec
    apply filterMap_congr_fn
    intro pr
    by_cases hname : pr.1.nameOf = "img"
    · cases hsrc : pr.1.attr "src" with
      | none => by_cases hdec : decorativeSpec pr.1 pr.2 <;> simp [hname, hsrc, hdec]
      | some u =>
        by_cases hdec : decorativeSpec pr.1 pr.2 <;> simp [hname, hsrc, hdec, hdeco]
    · by_cases hdec : decorativeSpec pr.1 pr.2 <;> simp [hname, hdec]
  simp only [get_photo_assets]
  rw [hbg, hpreview, himg]

/-- C2: for every message bubble, `get_photo_assets` equals the claim-side
description — decorative nodes (reactions-bar ancestor, emoji class,
emoji/sticker source path, emoji/sticker style) excluded, background-image
elements in document order, then the link-preview image, then the remaining
`<img>` elements, deduplicated keeping the first occurrence — and the result
has no duplicates, contains exactly the URLs of that collection, and is an
order-preserving subsequence of it (first occurrence wins). -/
theorem C2_photo_assets (d : Node) :
    get_photo_assets d = dedupSpecFold (bgSpec d ++ previewSpec d ++ imgSpec d) ∧
    (get_photo_assets d).Nodup ∧
    (∀ u, u ∈ get_photo_assets d ↔ u ∈ bgSpec d ++ previewSpec d ++ imgSpec d) ∧
    List.Sublist (get_photo_assets d) (bgSpec d ++ previewSpec d ++ imgSpec d) := by
  have hget := photo_decomp d
  refine ⟨?_, ?_, ?_, ?_⟩
  · rw [hget]
    have := dedupGo_eq_fold (bgSpec d ++ previewSpec d ++ imgSpec d) [] []
      (by intro u; simp)
    simpa [dedupSpecFold] using this
  · rw [hget]
    exact (dedupGo_nodup _ []).1
  · intro u
    rw [hget]
    simpa using dedupGo_mem (bgSpec d ++ previewSpec d ++ imgSpec d) [] u
  · rw [hget]
    exact dedupGo_sublist _ []

theorem dropLitCI_self : ∀ (ls r : List Char), dropLitCI ls (ls ++ r) = some r
  | [], r => rfl
  | l :: ls, r => by
    show (if l.toLower = l.toLower then dropLitCI ls (ls ++ r) else none) = some r
    rw [if_pos rfl]
    exact dropLitCI_self ls r

theorem bgMatchHere_lit (r : List Char) :
    bgMatchHere ("background-image:".data ++ r) = bgAfterColon (r.dropWhile isSpacePy) := by
  unfold bgMatchHere
  rw [dropLitCI_self]

theorem bgAfterColon_lit (r : List Char) :
    bgAfterColon ("url(".data ++ r) = bgAfterUrl r := by
  unfold bgAfterColon
  rw [dropLitCI_self]

theorem bgSearch_head (cs u : List Char) (hne : cs ≠ []) (h : bgMatchHere cs = some u) :
    bgSearch cs = some u := by
  obtain ⟨c, cs2, rfl⟩ := List.exists_cons_of_ne_nil hne
  show (match bgMatchHere (c :: cs2) with | some v => some v | none => bgSearch cs2) = some u
  rw [h]

theorem dropWhile_ws_url (ws Y : List Char) (hws : ∀ c ∈ ws, isSpacePy c = true) :
    (ws ++ ("url(".data ++ Y)).dropWhile isSpacePy = "url(".data ++ Y := by
  refine (takeWhile_all_append ws _ hws ?_).2
  intro c hc
  injection hc with h2
  subst h2
  decide

theorem bgAfterUrl_unq (u post : List Char) (hne : u ≠ [])
    (hu : ∀ c ∈ u, bgUrlChar c = true) :
    bgAfterUrl (u ++ ')' :: post) = some u := by
  obtain ⟨u0, u2, rfl⟩ := List.exists_cons_of_ne_nil hne
  have h0 : bgUrlChar u0 = true := hu u0 (List.mem_cons_self u0 u2)
  have h0x : (¬u0 = sqC ∧ ¬u0 = dqC) ∧ ¬u0 = ')' := by
    simpa [bgUrlChar] using h0
  have hcond : (u0 = sqC || u0 = dqC) = false := by
    simp [h0x.1.1, h0x.1.2]
  have htk := @takeWhile_all_append bgUrlChar (u0 :: u2) (')' :: post) hu
    (by intro c hc; injection hc with h2; subst h2; decide)
  simp only [List.cons_append] at htk
  simp only [bgAfterUrl, List.cons_append]
  simp only [hcond, Bool.false_eq_true, if_false]
  rw [htk.1, htk.2]
  simp

theorem bgAfterUrl_quoted (q : Char) (u post : List Char)
    (hq : q = sqC ∨ q = dqC) (hne : u ≠ []) (hu : ∀ c ∈ u, bgUrlChar c = true) :
    bgAfterUrl (q :: (u ++ q :: ')' :: post)) = some u := by
  have hqf : bgUrlChar q = false := by rcases hq with rfl | rfl <;> decide
  have htk := @takeWhile_all_append bgUrlChar u (q :: ')' :: post) hu
    (by intro c hc; injection hc with h2; subst h2; exact hqf)
  rcases hq with rfl | rfl
  · show (if List.takeWhile bgUrlChar (u ++ sqC :: ')' :: post) = [] then none
      else
        match List.dropWhile bgUrlChar (u ++ sqC :: ')' :: post) with
        | [] => none
        | c :: rest2 =>
          if c = ')' then some (List.takeWhile bgUrlChar (u ++ sqC :: ')' :: post))
          else if c = sqC || c = dqC then
            match rest2 with
            | [] => none
            | c2 :: _ =>
              if c2 = ')' then some (List.takeWhile bgUrlChar (u ++ sqC :: ')' :: post))
              else none
          else none) = some u
    rw [htk.1, htk.2, if_neg hne]
    rfl
  · show (if List.takeWhile bgUrlChar (u ++ dqC :: ')' :: post) = [] then none
      else
        match List.dropWhile bgUrlChar (u ++ dqC :: ')' :: post) with
        | [] => none
        | c :: rest2 =>
          if c = ')' then some (List.takeWhile bgUrlChar (u ++ dqC :: ')' :: post))
          else if c = sqC || c = dqC then
            match rest2 with
            | [] => none
            | c2 :: _ =>
              if c2 = ')' then some (List.takeWhile bgUrlChar (u ++ dqC :: ')' :: post))
              else none
          else none) = some u
    rw [htk.1, htk.2, if_neg hne]
    rfl

theorem bgSearch_skip : ∀ (pre cs : List Char),
    (∀ i, i < pre.length → bgMatchHere ((pre ++ cs).drop i) = none) →
    bgSearch (pre ++ cs) = bgSearch cs
  | [], cs, _ => by simp
  | p :: pre, cs, h => by
    have h0 : bgMatchHere (p :: (pre ++ cs)) = none := by
      have := h 0 (by simp)
      simpa using this
    show (match bgMatchHere (p :: (pre ++ cs)) with
      | some v => some v
      | none => bgSearch (pre ++ cs)) = bgSearch cs
    rw [h0]
    exact bgSearch_skip pre cs (fun i hi => by
      have := h (i + 1) (by simp; omega)
      simpa using this)

theorem bgMatch_variants (ws u post : List Char)
    (hws : ∀ c ∈ ws, isSpacePy c = true) (hne : u ≠ [])
    (hu : ∀ c ∈ u, bgUrlChar c = true) :
    bgMatchHere ("background-image:".data ++ (ws ++ ("url(".data ++ (u ++ ')' :: post)))) = some u
    ∧ bgMatchHere ("background-image:".data
        ++ (ws ++ ("url(".data ++ (sqC :: (u ++ sqC :: ')' :: post))))) = some u
    ∧ bgMatchHere ("background-image:".data
        ++ (ws ++ ("url(".data ++ (dqC :: (u ++ dqC :: ')' :: post))))) = some u := by
  refine ⟨?_, ?_, ?_⟩
  · rw [bgMatchHere_lit, dropWhile_ws_url ws _ hws, bgAfterColon_lit]
    exact bgAfterUrl_unq u post hne hu
  · rw [bgMatchHere_lit, dropWhile_ws_url ws _ hws, bgAfterColon_lit]
    exact bgAfterUrl_quoted sqC u post (Or.inl rfl) hne hu
  · rw [bgMatchHere_lit, dropWhile_ws_url ws _ hws, bgAfterColon_lit]
    exact bgAfterUrl_quoted dqC u post (Or.inr rfl) hne hu

theorem bgSearch_style (sty : String) (pre ws u : List Char) (hne : u ≠ [])
    (hws : ∀ c ∈ ws, isSpacePy c = true)
    (hu : ∀ c ∈ u, bgUrlChar c = true)
    (hsty : sty.data
        = pre ++ ("background-image:".data ++ (ws ++ ("url(".data ++ (u ++ [')']))))
      ∨ sty.data
        = pre ++ ("background-image:".data
            ++ (ws ++ ("url(".data ++ (sqC :: (u ++ [sqC, ')'])))))
      ∨ sty.data
        = pre ++ ("background-image:".data
            ++ (ws ++ ("url(".data ++ (dqC :: (u ++ [dqC, ')']))))))
    (hpre : ∀ i, i < pre.length → bgMatchHere (sty.data.drop i) = none) :
    bgSearch sty.data = some u := by
  have hv := bgMatch_variants ws u [] hws hne hu
  rcases hsty with h | h | h <;> (rw [h] at hpre ⊢; rw [bgSearch_skip _ _ hpre])
  · exact bgSearch_head _ u (List.cons_ne_nil _ _) hv.1
  · exact bgSearch_head _ u (List.cons_ne_nil _ _) hv.2.1
  · exact bgSearch_head _ u (List.cons_ne_nil _ _) hv.2.2

theorem photo_single (sty : String) (u : List Char)
    (hsearch : bgSearch sty.data = some u)
    (hemoji : containsS sty "emoji" = false)
    (hsticker : containsS sty "sticker" = false) :
    get_photo_assets (Node.elem "div" []
      (.cons (Node.elem "i" [("style", sty)] .nil) .nil)) = [(⟨u⟩ : String)] := by
  have hd : decorativeSpec (Node.elem "i" [("style", sty)] .nil)
      [Node.elem "div" [] (.cons (Node.elem "i" [("style", sty)] .nil) .nil)] = false := by
    have he : decorativeSpec (Node.elem "i" [("style", sty)] .nil)
        [Node.elem "div" [] (.cons (Node.elem "i" [("style", sty)] .nil) .nil)]
        = (containsS sty "emoji" || containsS sty "sticker") := rfl
    rw [he, hemoji, hsticker]
    rfl
  have hdesc : descendantsOf (Node.elem "div" []
      (.cons (Node.elem "i" [("style", sty)] .nil) .nil))
      = [(Node.elem "i" [("style", sty)] .nil,
          [Node.elem "div" [] (.cons (Node.elem "i" [("style", sty)] .nil) .nil)])] := rfl
  have hat : (Node.elem "i" [("style", sty)] .nil).attr "style" = some sty := rfl
  have hbgS : bgSpec (Node.elem "div" []
      (.cons (Node.elem "i" [("style", sty)] .nil) .nil)) = [(⟨u⟩ : String)] := by
    unfold bgSpec
    rw [hdesc, List.filterMap_cons, List.filterMap_nil]
    simp only [hd, Bool.false_eq_true, if_false, hat, hsearch]
    rfl
  have hprevS : previewSpec (Node.elem "div" []
      (.cons (Node.elem "i" [("style", sty)] .nil) .nil)) = [] := rfl
  have himgS : imgSpec (Node.elem "div" []
      (.cons (Node.elem "i" [("style", sty)] .nil) .nil)) = [] := by
    unfold imgSpec
    rw [hdesc, List.filterMap_cons, List.filterMap_nil]
    have hnm : (Node.elem "i" [("style", sty)] .nil).nameOf = "i" := rfl
    simp only [hd, Bool.false_eq_true, if_false, hnm]
    rw [if_neg (show ¬(("i" : String) = "img") by decide)]
  rw [photo_decomp, hbgS, hprevS, himgS]
  simp [dedupGo]

/-- C8: for every style string matching the `BG_URL_RE` background-image
pattern anywhere in the string (`re.search`: an arbitrary prefix with no
earlier match, then `background-image:`, optional whitespace, `url(`, an
optionally quoted URL of capture-group characters, `)`), the matcher returns
exactly the URL between the optional quotes, and the result is the same
whether the `url(...)` argument is unquoted, single-quoted or double-quoted
(first conjunct: the anchored match; second: the search through a prefix);
moreover the photo asset extractor, on a bubble whose styled descendant
carries such a style (not itself marked as emoji/sticker), returns exactly
that URL. -/
theorem C8_bg_url_extraction :
    (∀ ws u post : List Char,
      (∀ c ∈ ws, isSpacePy c = true) → u ≠ [] → (∀ c ∈ u, bgUrlChar c = true) →
      bgMatchHere ("background-image:".data
          ++ (ws ++ ("url(".data ++ (u ++ ')' :: post)))) = some u
      ∧ bgMatchHere ("background-image:".data
          ++ (ws ++ ("url(".data ++ (sqC :: (u ++ sqC :: ')' :: post))))) = some u
      ∧ bgMatchHere ("background-image:".data
          ++ (ws ++ ("url(".data ++ (dqC :: (u ++ dqC :: ')' :: post))))) = some u)
    ∧ (∀ (sty : String) (pre ws u : List Char),
      u ≠ [] → (∀ c ∈ ws, isSpacePy c = true) → (∀ c ∈ u, bgUrlChar c = true) →
      (sty.data
          = pre ++ ("background-image:".data ++ (ws ++ ("url(".data ++ (u ++ [')']))))
        ∨ sty.data
          = pre ++ ("background-image:".data
              ++ (ws ++ ("url(".data ++ (sqC :: (u ++ [sqC, ')'])))))
        ∨ sty.data
          = pre ++ ("background-image:".data
              ++ (ws ++ ("url(".data ++ (dqC :: (u ++ [dqC, ')'])))))) →
      (∀ i, i < pre.length → bgMatchHere (sty.data.drop i) = none) →
      bgSearch sty.data = some u)
    ∧ (∀ (sty : String) (pre ws u : List Char),
      u ≠ [] → (∀ c ∈ ws, isSpacePy c = true) → (∀ c ∈ u, bgUrlChar c = true) →
      (sty.data
          = pre ++ ("background-image:".data ++ (ws ++ ("url(".data ++ (u ++ [')']))))
        ∨ sty.data
          = pre ++ ("background-image:".data
              ++ (ws ++ ("url(".data ++ (sqC :: (u ++ [sqC, ')'])))))
        ∨ sty.data
          = pre ++ ("background-image:".data
              ++ (ws ++ ("url(".data ++ (dqC :: (u ++ [dqC, ')'])))))) →
      (∀ i, i < pre.length → bgMatchHere (sty.data.drop i) = none) →
      containsS sty "emoji" = false → containsS sty "sticker" = false →
      get_photo_assets (Node.elem "div" []
        (.cons (Node.elem "i" [("style", sty)] .nil) .nil)) = [(⟨u⟩ : String)]) := by
  refine ⟨?_, ?_, ?_⟩
  · intro ws u post hws hne hu
    exact bgMatch_variants ws u post hws hne hu
  · intro sty pre ws u hne hws hu hsty hpre
    exact bgSearch_style sty pre ws u hne hws hu hsty hpre
  · intro sty pre ws u hne hws hu hsty hpre hemoji hsticker
    exact photo_single sty u (bgSearch_style sty pre ws u hne hws hu hsty hpre)
      hemoji hsticker

theorem C8_witness :
    bgMatchHere ("background-image:".data ++ ([' '] ++ ("url(".data
        ++ ("https://cdn.example/p.png".data ++ ')' :: []))))
      = some "https://cdn.example/p.png".data
    ∧ get_photo_assets (Node.elem "div" [] (.cons (Node.elem "i"
        [("style", "background-image:url(https://cdn.example/p.png)")] .nil) .nil))
      = ["https://cdn.example/p.png"]
    ∧ get_photo_assets (Node.elem "div" [] (.cons (Node.elem "i"
        [("style", ⟨"background-image:url(".data
          ++ sqC :: ("https://cdn.example/p.png".data ++ [sqC, ')'])⟩)] .nil) .nil))
      = ["https://cdn.example/p.png"]
    ∧ get_photo_assets (Node.elem "div" [] (.cons (Node.elem "i"
        [("style", "background-image:url(\"https://cdn.example/p.png\")")] .nil) .nil))
      = ["https://cdn.example/p.png"]
    ∧ get_photo_assets (Node.elem "div" [] (.cons (Node.elem "i"
        [("style", "width:60px;background-image: url(https://cdn.example/p.png)")] .nil)
        .nil))
      = ["https://cdn.example/p.png"] := by
  refine ⟨?_, ?_, ?_, ?_, ?_⟩
  · exact (C8_bg_url_extraction.1 [' '] "https://cdn.example/p.png".data []
      (by decide) (by decide) (by decide)).1
  · exact C8_bg_url_extraction.2.2
      "background-image:url(https://cdn.example/p.png)" [] []
      "https://cdn.example/p.png".data
      (by decide) (by decide) (by decide) (Or.inl (by decide)) (by decide)
      (by decide) (by decide)
  · exact C8_bg_url_extraction.2.2
      ⟨"background-image:url(".data
        ++ sqC :: ("https://cdn.example/p.png".data ++ [sqC, ')'])⟩ [] []
      "https://cdn.example/p.png".data
      (by decide) (by decide) (by decide) (Or.inr (Or.inl (by decide))) (by decide)
      (by decide) (by decide)
  · exact C8_bg_url_extraction.2.2
      "background-image:url(\"https://cdn.example/p.png\")" [] []
      "https://cdn.example/p.png".data
      (by decide) (by decide) (by decide) (Or.inr (Or.inr (by decide))) (by decide)
      (by decide) (by decide)
  · exact C8_bg_url_extraction.2.2
      "width:60px;background-image: url(https://cdn.example/p.png)"
      "width:60px;".data [' '] "https://cdn.example/p.png".data
      (by decide) (by decide) (by decide) (Or.inl (by decide)) (by decide)
      (by decide) (by decide)

/-- C6: on scenario A's bubble, `build_item` yields an item whose link is the
permalink rewritten to `https://t.me/s/mychan/42`, whose description is
`<p>Hello <a href="https://t.me/x" rel="noopener" target="_blank">world</a></p>`
(the relative href absolutized against `https://t.me/`), and which has no
enclosure. -/
theorem C6_scenario_a :
    (build_item "2025-01-01T00:00:00" "mychan" bubbleA).map
        (fun it => (it.link, it.description, it.enclosureUrl))
      = some ("https://t.me/s/mychan/42",
          "<p>Hello <a href=\"https://t.me/x\" rel=\"noopener\" target=\"_blank\">world</a></p>",
          none) := by
  rfl

/-- Shared helper: with a nonempty permalink, `build_item` produces exactly
the record its `let`-bindings describe. -/
theorem build_item_some (now ch : String) (d : Node) (l : String)
    (hl : get_link d = some l) (hne : l ≠ "") :
    build_item now ch d = some {
        title := "New post in channel @" ++ ch,
        link := l,
        description := (if sanitize_keep_links (get_html d) = ""
            then "<p>" ++ autolink_plain (get_plain_text d) ++ "</p>"
            else sanitize_keep_links (get_html d))
          ++ String.join ((get_photo_assets d).map (fun u =>
            "<p><img src=\"" ++ escape_attr u ++ "\" referrerpolicy=\"no-referrer\"/></p>")),
        pubDate := match selectTimeAttr d with | some ts => ts | none => now,
        guid := l,
        guidIsPermaLink := true,
        enclosureUrl := match get_photo_assets d with
          | [] => none
          | p :: _ => some (p, guess_mime p),
        contentEncoded := if get_html d = ""
              ∧ String.join ((get_photo_assets d).map (fun u =>
                "<p><img src=\"" ++ escape_attr u ++ "\" referrerpolicy=\"no-referrer\"/></p>")) = ""
            then l
            else get_html d ++ String.join ((get_photo_assets d).map (fun u =>
              "<p><img src=\"" ++ escape_attr u ++ "\" referrerpolicy=\"no-referrer\"/></p>")) } := by
  simp only [build_item, hl]
  rw [if_neg hne]

/-- Shared helper: the content fallbacks of a produced item when the
message-text div is absent and there are no photos. -/
theorem build_item_fallbacks (now ch : String) (d : Node) (l : String)
    (hl : get_link d = some l) (hne : l ≠ "")
    (hmt : selectMsgText d = none) (hph : get_photo_assets d = []) :
    ∀ it, build_item now ch d = some it →
      it.description = "<p></p>" ∧ it.contentEncoded = l := by
  intro it hit
  rw [build_item_some now ch d l hl hne] at hit
  injection hit with hit2
  subst hit2
  have hgh : get_html d = "" := by
    unfold get_html
    rw [hmt]
  have hgp : get_plain_text d = "" := by
    unfold get_plain_text
    rw [hmt]
  constructor
  · simp only [hgh, hgp, hph, List.map_nil]
    rfl
  · simp only [hgh, hph, List.map_nil]
    rfl

/-- C7: a bubble with no extractable permalink yields no item and raises no
error (silently skipped, before the timestamp is even parsed); with a
nonempty permalink, a bubble missing its timestamp still yields an item
whose publication date falls back to the current processing time, and one
with a valid timestamp yields an item dated by it; in either case a missing
message-text div with no photos degrades to the empty first paragraph
`<p></p>` and to the bare link as the encoded content.  (A
present-but-malformed `datetime` attribute is the one structural defect that
is not skipped: `datetime.fromisoformat` raises, the `.error` branch of
`build_itemE`.) -/
theorem C7_malformed_bubbles :
    (∀ (now ch : String) (d : Node), get_link d = none → build_itemE now ch d = .ok none)
    ∧ (∀ (now ch : String) (d : Node) (l : String), get_link d = some l → l ≠ "" →
        selectTimeAttr d = none →
        ∃ it, build_itemE now ch d = .ok (some it)
          ∧ it.pubDate = now
          ∧ (selectMsgText d = none → get_photo_assets d = [] →
              it.description = "<p></p>" ∧ it.contentEncoded = l))
    ∧ (∀ (now ch : String) (d : Node) (l ts : String), get_link d = some l → l ≠ "" →
        selectTimeAttr d = some ts → validIso ts = true →
        ∃ it, build_itemE now ch d = .ok (some it)
          ∧ it.pubDate = ts
          ∧ (selectMsgText d = none → get_photo_assets d = [] →
              it.description = "<p></p>" ∧ it.contentEncoded = l)) := by
  refine ⟨?_, ?_, ?_⟩
  · intro now ch d h
    simp only [build_itemE, h]
  · intro now ch d l hl hne ht
    have hb := build_item_some now ch d l hl hne
    have hbe : build_itemE now ch d = .ok (build_item now ch d) := by
      simp only [build_itemE, hl]
      rw [if_neg hne, ht]
    rw [hb] at hbe
    refine ⟨_, hbe, ?_, fun hmt hph =>
      build_item_fallbacks now ch d l hl hne hmt hph _ hb⟩
    simp only [ht]
  · intro now ch d l ts hl hne hts hvalid
    have hb := build_item_some now ch d l hl hne
    have hbe : build_itemE now ch d = .ok (build_item now ch d) := by
      simp only [build_itemE, hl]
      rw [if_neg hne]
      simp only [hts]
      rw [if_pos hvalid]
    rw [hb] at hbe
    refine ⟨_, hbe, ?_, fun hmt hph =>
      build_item_fallbacks now ch d l hl hne hmt hph _ hb⟩
    simp only [hts]

theorem C7_witness :
    build_itemE "2025-01-01T00:00:00" "chan" bubbleNoLink = .ok none
    ∧ (∃ it, build_itemE "2025-01-01T00:00:00" "chan" bubbleBare = .ok (some it)
        ∧ it.pubDate = "2025-01-01T00:00:00"
        ∧ it.description = "<p></p>" ∧ it.contentEncoded = "https://t.me/s/x/7")
    ∧ (∃ it, build_itemE "2025-01-01T00:00:00" "chan" bubbleTimed = .ok (some it)
        ∧ it.pubDate = "2024-05-01T12:34:56+00:00"
        ∧ it.description = "<p></p>" ∧ it.contentEncoded = "https://t.me/s/x/9") := by
  refine ⟨?_, ?_, ?_⟩
  · exact C7_malformed_bubbles.1 "2025-01-01T00:00:00" "chan" bubbleNoLink rfl
  · obtain ⟨it, hit, hpub, hfall⟩ := C7_malformed_bubbles.2.1 "2025-01-01T00:00:00" "chan"
      bubbleBare "https://t.me/s/x/7" rfl (by decide) rfl
    have h2 := hfall rfl rfl
    exact ⟨it, hit, hpub, h2.1, h2.2⟩
  · obtain ⟨it, hit, hpub, hfall⟩ := C7_malformed_bubbles.2.2 "2025-01-01T00:00:00" "chan"
      bubbleTimed "https://t.me/s/x/9" "2024-05-01T12:34:56+00:00" rfl (by decide) rfl
      (by decide)
    have h2 := hfall rfl rfl
    exact ⟨it, hit, hpub, h2.1, h2.2⟩
